import Mathlib

/-!
# Verification of the primer-binding-site search

A shallow embedding of `src/packages/ove/src/utils/findPrimerBindingSites.js`.
JavaScript strings are modelled as `List Char`; JS numbers holding integer
values (positions, counts, the `maxMismatches` / `minBindingRegion` options)
are modelled as `ℤ` where they may be negative and `ℕ` where the source keeps
them non-negative.  The JS `%` operator is applied in the source only to
non-negative left operands, where it agrees with `Int.emod`.
-/

set_option maxRecDepth 4000

namespace PrimerSites

/-- Modelled from the spec: the complement transform of
`@teselagen/sequence-utils` (an external collaborator of the core, not part of
`src/`): A↔T, G↔C, any other symbol maps to itself. -/
def getComplementChar (c : Char) : Char :=
  if c = 'A' then 'T'
  else if c = 'T' then 'A'
  else if c = 'G' then 'C'
  else if c = 'C' then 'G'
  else c

/-- Modelled from the spec: `getComplementSequenceString` of
`@teselagen/sequence-utils`, applied characterwise. -/
def getComplementSequenceString (s : List Char) : List Char :=
  s.map getComplementChar

/-- The reverse complement, as built at `findPrimerBindingSites.js:187`:
`getComplementSequenceString(primer).split("").reverse().join("")`. -/
def reverseComplement (s : List Char) : List Char :=
  (getComplementSequenceString s).reverse

/-- Length of the longest common prefix on which two lists agree position by
position (the consecutive-match run anchored at the front). -/
def leadRun : List Char → List Char → ℕ
  | a :: as, b :: bs => if a = b then leadRun as bs + 1 else 0
  | _, _ => 0

/-- Consecutive-match run anchored at the back of two lists. -/
def tailRun (a b : List Char) : ℕ :=
  leadRun a.reverse b.reverse

/-- The integer range `[lo, lo+1, …, hi]` (empty when `hi < lo`);
used to model JS `for` loops over integer bounds. -/
def intRange (lo hi : ℤ) : List ℤ :=
  (List.range (hi + 1 - lo).toNat).map (fun (i : ℕ) => lo + (i : ℤ))

/-- Result record of `findOptimalBinding` / `findOptimalBindingFrom5Prime`
(`consecutiveMatches` holds `consecutiveMatchesFrom3Prime` resp.
`consecutiveMatchesFrom5Prime`). -/
structure OptBindingResult where
  isValid : Bool
  bindingLength : ℕ
  mismatchPositions : List ℕ
  consecutiveMatches : ℕ
  deriving Repr, DecidableEq

/-- The extension loop shared by both matchers
(`findPrimerBindingSites.js:320-334` and `393-407`).  `lst` is the remaining
(primer, template) pairs in the order the JS loop visits them, `posOf t` is the
absolute primer position of the `t`-th visited pair, `mms` the mismatch
positions pushed so far and `bl` the binding length so far.  A mismatch is
recorded while `mismatchPositions.length < maxMismatches`; otherwise the loop
breaks. -/
def extendAux (maxMismatches : ℤ) (posOf : ℕ → ℕ) :
    List (Char × Char) → ℕ → List ℕ → ℕ → List ℕ × ℕ
  | [], _, mms, bl => (mms, bl)
  | ab :: rest, t, mms, bl =>
    if ab.1 = ab.2 then
      extendAux maxMismatches posOf rest (t + 1) mms (bl + 1)
    else if (mms.length : ℤ) < maxMismatches then
      extendAux maxMismatches posOf rest (t + 1) (mms ++ [posOf t]) (bl + 1)
    else
      (mms, bl)

/-- `findOptimalBinding` (`findPrimerBindingSites.js:287-342`): the 3'-anchored
seed-and-extend matcher used for forward primers.  The JS index `-1` lookups of
the length-0 corner (where `undefined !== undefined` is `false`, so the 3'
check passes) are reproduced by `getD` returning the same default on both
sides. -/
def findOptimalBinding (primer template : List Char)
    (maxMismatches minBindingRegion : ℤ) : OptBindingResult :=
  if primer.length ≠ template.length then
    ⟨false, 0, [], 0⟩
  else
    let length := primer.length
    if primer.getD (length - 1) ' ' ≠ template.getD (length - 1) ' ' then
      ⟨false, 0, [], 0⟩
    else
      let consecutive := tailRun primer template
      if (consecutive : ℤ) < minBindingRegion then
        ⟨false, 0, [], consecutive⟩
      else
        -- positions length-consecutive-1, …, 1, 0 in this order
        let lst := ((primer.zip template).take (length - consecutive)).reverse
        let r := extendAux maxMismatches (fun t => length - consecutive - 1 - t)
          lst 0 [] consecutive
        ⟨true, r.2, r.1, consecutive⟩

/-- `findOptimalBindingFrom5Prime` (`findPrimerBindingSites.js:359-415`): the
5'-anchored variant used for the reverse strand (the reverse-complemented
primer's 5' end is the original primer's 3' end). -/
def findOptimalBindingFrom5Prime (primer template : List Char)
    (maxMismatches minBindingRegion : ℤ) : OptBindingResult :=
  if primer.length ≠ template.length then
    ⟨false, 0, [], 0⟩
  else
    if primer.getD 0 ' ' ≠ template.getD 0 ' ' then
      ⟨false, 0, [], 0⟩
    else
      let consecutive := leadRun primer template
      if (consecutive : ℤ) < minBindingRegion then
        ⟨false, 0, [], consecutive⟩
      else
        -- positions consecutive, consecutive+1, …, length-1 in this order
        let lst := (primer.zip template).drop consecutive
        let r := extendAux maxMismatches (fun t => consecutive + t)
          lst 0 [] consecutive
        ⟨true, r.2, r.1, consecutive⟩

/-- A binding-site record as assembled at `findPrimerBindingSites.js:149-166`
(forward) and `247-265` (reverse).  `tm` is `Option ℤ` (JS `null` ↦ `none`);
the numeric type of the externally computed `tm`, `gcPercent` and
`stability3Prime` values is irrelevant to the verified properties and is
modelled as `ℤ`.  The JS field `end` is a Lean keyword and is called `stop`
here. -/
structure BindingSite where
  start : ℤ
  stop : ℤ
  forward : Bool
  strand : String
  numMismatches : ℕ
  mismatchPositions : List ℤ
  matchedSequence : List Char
  primerSequence : List Char
  bindingSequence : List Char
  overhangSequence : List Char
  overhangLength : ℕ
  hasOverhang : Bool
  fullPrimerMismatchPositions : List ℤ
  reverseComplementSearched : List Char
  tm : Option ℤ
  gcPercent : ℤ
  stability3Prime : ℤ
  id : String
  deriving Repr, DecidableEq

instance : Inhabited BindingSite :=
  ⟨⟨0, 0, true, "+", 0, [], [], [], [], [], 0, false, [], [], none, 0, 0, ""⟩⟩

/-- The template window of primer length read at
`findPrimerBindingSites.js:121-125` (forward): characters at indices
`(startPos + i + templateLength) % templateLength`. -/
def templateRegionFwd (template : List Char) (startPos : ℤ) (primerLength : ℕ) :
    List Char :=
  (List.range primerLength).map fun (i : ℕ) =>
    template.getD (((startPos + (i : ℤ) + template.length) % template.length).toNat) ' '

/-- The template window read at `findPrimerBindingSites.js:196-200` (reverse):
characters at indices `(startPos + i) % templateLength`. -/
def templateRegionRev (template : List Char) (startPos : ℤ) (primerLength : ℕ) :
    List Char :=
  (List.range primerLength).map fun (i : ℕ) =>
    template.getD (((startPos + (i : ℤ)) % template.length).toNat) ' '

/-- The record pushed by the forward branch at
`findPrimerBindingSites.js:149-166`, for a valid binding result `br` found at
window `templateRegion` with 3' end at `endPos`. -/
def mkForwardSite (primer : List Char) (templateLength : ℤ)
    (templateRegion : List Char) (startPos endPos : ℤ) (br : OptBindingResult)
    (calculateTm : List Char → Option ℤ) (gcOf stabilityOf : List Char → ℤ) :
    BindingSite :=
  let primerLength := primer.length
  let overhangLength := primerLength - br.bindingLength
  let bindingSeq := primer.drop overhangLength
  { start := (startPos + overhangLength + templateLength) % templateLength
    stop := endPos
    forward := true
    strand := "+"
    numMismatches := br.mismatchPositions.length
    mismatchPositions := br.mismatchPositions.map
      (fun (p : ℕ) => (p : ℤ) - overhangLength)
    matchedSequence := templateRegion.drop overhangLength
    primerSequence := primer
    bindingSequence := bindingSeq
    overhangSequence := if overhangLength > 0 then primer.take overhangLength else []
    overhangLength := overhangLength
    hasOverhang := overhangLength > 0
    fullPrimerMismatchPositions :=
      (List.range overhangLength).map Int.ofNat
        ++ br.mismatchPositions.map Int.ofNat
    reverseComplementSearched := []
    tm := calculateTm bindingSeq
    gcPercent := gcOf bindingSeq
    stability3Prime := stabilityOf bindingSeq
    id := "" }

/-- One iteration of the forward scan loop
(`findPrimerBindingSites.js:114-168`) at 3'-end position `endPos`;
`none` models `continue` / an invalid binding. -/
def forwardStep (primer template : List Char) (maxMismatches minBindingRegion : ℤ)
    (isCircular : Bool) (calculateTm : List Char → Option ℤ)
    (gcOf stabilityOf : List Char → ℤ) (endPos : ℤ) : Option BindingSite :=
  let startPos := endPos - primer.length + 1
  if startPos < 0 ∧ ¬isCircular then none
  else
    let templateRegion := templateRegionFwd template startPos primer.length
    let bindingResult := findOptimalBinding primer templateRegion maxMismatches minBindingRegion
    if bindingResult.isValid then
      some (mkForwardSite primer template.length templateRegion startPos endPos
        bindingResult calculateTm gcOf stabilityOf)
    else none

/-- The record pushed by the reverse branch at
`findPrimerBindingSites.js:247-265`, for a valid binding result `br` of the
reverse-complemented primer found at the window starting at `startPos`. -/
def mkReverseSite (primer primerRC : List Char) (templateRegion : List Char)
    (startPos : ℤ) (br : OptBindingResult)
    (calculateTm : List Char → Option ℤ) (gcOf stabilityOf : List Char → ℤ) :
    BindingSite :=
  let primerLength := primer.length
  let overhangLength := primerLength - br.bindingLength
  let bindingSeq := primer.drop overhangLength
  { start := startPos
    stop := startPos + br.bindingLength - 1
    forward := false
    strand := "-"
    numMismatches := br.mismatchPositions.length
    mismatchPositions := br.mismatchPositions.map
      (fun (posInRC : ℕ) => (primerLength : ℤ) - 1 - posInRC - overhangLength)
    matchedSequence := templateRegion.take br.bindingLength
    primerSequence := primer
    bindingSequence := bindingSeq
    overhangSequence := if overhangLength > 0 then primer.take overhangLength else []
    overhangLength := overhangLength
    hasOverhang := overhangLength > 0
    fullPrimerMismatchPositions :=
      (List.range overhangLength).map Int.ofNat
        ++ br.mismatchPositions.map
          (fun (posInRC : ℕ) => (primerLength : ℤ) - 1 - posInRC)
    reverseComplementSearched := primerRC
    tm := calculateTm bindingSeq
    gcPercent := gcOf bindingSeq
    stability3Prime := stabilityOf bindingSeq
    id := "" }

/-- One iteration of the reverse scan loop
(`findPrimerBindingSites.js:189-267`) at start position `startPos`. -/
def reverseStep (primer template : List Char) (maxMismatches minBindingRegion : ℤ)
    (isCircular : Bool) (calculateTm : List Char → Option ℤ)
    (gcOf stabilityOf : List Char → ℤ) (startPos : ℤ) : Option BindingSite :=
  let primerRC := reverseComplement primer
  let endPos := startPos + primer.length - 1
  if endPos ≥ template.length ∧ ¬isCircular then none
  else
    let templateRegion := templateRegionRev template startPos primer.length
    let bindingResult := findOptimalBindingFrom5Prime primerRC templateRegion
      maxMismatches minBindingRegion
    if bindingResult.isValid then
      some (mkReverseSite primer primerRC templateRegion startPos bindingResult
        calculateTm gcOf stabilityOf)
    else none

/-- `searchForBindingSites` (`findPrimerBindingSites.js:99-271`).  The forward
branch scans `endPos` from `primerLength - 1` to `templateLength - 1`; the
reverse branch scans `startPos` from `0` to `templateLength - primerLength`. -/
def searchForBindingSites (primer template : List Char) (forward : Bool)
    (maxMismatches minBindingRegion : ℤ) (isCircular : Bool)
    (calculateTm : List Char → Option ℤ) (gcOf stabilityOf : List Char → ℤ) :
    List BindingSite :=
  if forward then
    (intRange ((primer.length : ℤ) - 1) ((template.length : ℤ) - 1)).filterMap
      (forwardStep primer template maxMismatches minBindingRegion isCircular
        calculateTm gcOf stabilityOf)
  else
    (intRange 0 ((template.length : ℤ) - (primer.length : ℤ))).filterMap
      (reverseStep primer template maxMismatches minBindingRegion isCircular
        calculateTm gcOf stabilityOf)

/-- `getBetterBindingSite` (`findPrimerBindingSites.js:460-479`), as the
boolean "the first argument is returned" (the JS caller only tests the result
for identity with its first argument).  Ranking: fewer `numMismatches`, then
shorter `overhangLength`, then longer `bindingSequence`, ties keep `a`. -/
def getBetterBindingSite (a b : BindingSite) : Bool :=
  if a.numMismatches ≠ b.numMismatches then
    a.numMismatches < b.numMismatches
  else if a.overhangLength ≠ b.overhangLength then
    a.overhangLength < b.overhangLength
  else if a.bindingSequence.length ≠ b.bindingSequence.length then
    a.bindingSequence.length > b.bindingSequence.length
  else
    true

/-- The duplicate test of `findPrimerBindingSites.js:438-447`: the intervals
overlap by more than 50% of the shorter one.  `overlapLength > minLength * 0.5`
on integers is exactly `2 * overlapLength > minLength` (the float products and
comparison are exact at these magnitudes). -/
def overlapsMoreThanHalf (a b : BindingSite) : Bool :=
  let overlapStart := max a.start b.start
  let overlapEnd := min a.stop b.stop
  let overlapLength := max 0 (overlapEnd - overlapStart + 1)
  let aLength := a.stop - a.start + 1
  let bLength := b.stop - b.start + 1
  let minLength := min aLength bLength
  2 * overlapLength > minLength

/-- The inner `j` loop of `deduplicateBindingSites`
(`findPrimerBindingSites.js:428-451`): `a` is re-read from `results[i]` at each
`j`, dominated indices are skipped, and on a significant same-strand overlap
the loser of `getBetterBindingSite` is added to the dominated set. -/
def dedupInner (results : List BindingSite) (i : ℕ) :
    List ℕ → List ℕ → List ℕ
  | [], dominated => dominated
  | j :: js, dominated =>
    -- `a := results[i]`, `b := results[j]`
    if j ∈ dominated then dedupInner results i js dominated
    else if (results.getD i default).forward ≠ (results.getD j default).forward then
      dedupInner results i js dominated
    else if overlapsMoreThanHalf (results.getD i default) (results.getD j default) then
      dedupInner results i js (dominated ++
        [if getBetterBindingSite (results.getD i default) (results.getD j default)
          then j else i])
    else dedupInner results i js dominated

/-- The outer `i` loop of `deduplicateBindingSites`
(`findPrimerBindingSites.js:425-452`).  Note the skip of a dominated `i`
happens only on entry to its row: an index dominated while its own row runs
keeps comparing. -/
def dedupOuter (results : List BindingSite) : List ℕ → List ℕ → List ℕ
  | [], dominated => dominated
  | i :: is, dominated =>
    if i ∈ dominated then dedupOuter results is dominated
    else
      dedupOuter results is
        (dedupInner results i
          (List.range' (i + 1) (results.length - (i + 1))) dominated)

/-- The dominated index set computed by `deduplicateBindingSites`. -/
def dedupDominated (results : List BindingSite) : List ℕ :=
  dedupOuter results (List.range results.length) []

/-- `deduplicateBindingSites` (`findPrimerBindingSites.js:420-455`). -/
def deduplicateBindingSites (results : List BindingSite) : List BindingSite :=
  if results.length ≤ 1 then results
  else
    ((results.enum.filter fun p => p.1 ∉ dedupDominated results).map Prod.snd)

/-- Insert into a list sorted ascending by `start`, after all entries whose
`start` is ≤ the new one. -/
def insertByStart (x : BindingSite) : List BindingSite → List BindingSite
  | [] => [x]
  | y :: ys => if y.start ≤ x.start then y :: insertByStart x ys else x :: y :: ys

/-- `results.sort((a, b) => a.start - b.start)`
(`findPrimerBindingSites.js:70`).  JS `Array.prototype.sort` is specified to be
stable, and a stable sort ascending by key is a unique function of the input
list, here realised as an insertion sort. -/
def sortByStart (results : List BindingSite) : List BindingSite :=
  results.foldl (fun acc x => insertByStart x acc) []

/-- The id assignment of `findPrimerBindingSites.js:76-79`:
``id: `binding-site-${index}` `` in output order. -/
def assignIds (results : List BindingSite) : List BindingSite :=
  results.enum.map fun p => { p.2 with id := "binding-site-" ++ toString p.1 }

/-- The argument object of `findPrimerBindingSites`
(`findPrimerBindingSites.js:26-34`), with the JS default values.  An omitted
`calculateTm` is the constant `none` (the source only ever uses
`calculateTm ? calculateTm(seq) : null`). -/
structure FindArgs where
  primerSequence : List Char
  fullSequence : List Char
  maxMismatches : ℤ := 3
  searchReverseStrand : Bool := true
  isCircular : Bool := false
  calculateTm : List Char → Option ℤ := fun _ => none
  minBindingRegion : ℤ := 12

/-- The normalized primer of `findPrimerBindingSites.js:39`:
`primerSequence.toUpperCase().replace(/\s/g, "")`. -/
def normalizedPrimer (s : List Char) : List Char :=
  (s.map Char.toUpper).filter fun c => ¬c.isWhitespace

/-- The raw candidate list before sorting (`findPrimerBindingSites.js:41-67`):
forward-strand results followed, when `searchReverseStrand`, by reverse-strand
results. -/
def rawResults (gcOf stabilityOf : List Char → ℤ) (args : FindArgs) :
    List BindingSite :=
  let primer := normalizedPrimer args.primerSequence
  let sequence := args.fullSequence.map Char.toUpper
  searchForBindingSites primer sequence true args.maxMismatches
      args.minBindingRegion args.isCircular args.calculateTm gcOf stabilityOf
    ++ (if args.searchReverseStrand then
        searchForBindingSites primer sequence false args.maxMismatches
          args.minBindingRegion args.isCircular args.calculateTm gcOf stabilityOf
      else [])

/-- The raw candidates after the position sort (`findPrimerBindingSites.js:70`),
the list `deduplicateBindingSites` runs on. -/
def sortedResults (gcOf stabilityOf : List Char → ℤ) (args : FindArgs) :
    List BindingSite :=
  sortByStart (rawResults gcOf stabilityOf args)

/-- `findPrimerBindingSites` (`findPrimerBindingSites.js:26-80`).  The GC% and
3'-stability calculators of `@teselagen/sequence-utils` are external
collaborators and are passed as parameters `gcOf` / `stabilityOf`. -/
def findPrimerBindingSites (gcOf stabilityOf : List Char → ℤ)
    (args : FindArgs) : List BindingSite :=
  if args.primerSequence = [] ∨ args.fullSequence = [] then []
  else
    assignIds (deduplicateBindingSites (sortedResults gcOf stabilityOf args))

/-- The reported `[start, end]` interval of a site (plus-strand coordinates). -/
def intervalOf (site : BindingSite) : ℤ × ℤ :=
  (site.start, site.stop)

/-- The template-side bases paired with `bindingSequence` in original-primer
5'→3' orientation: for a forward site the matched template slice itself, for a
reverse site the reverse complement of the matched plus-strand slice (the
minus-strand bases read 3'→5', i.e. aligned with the primer). -/
def pairedTemplate (site : BindingSite) : List Char :=
  if site.forward then site.matchedSequence
  else reverseComplement site.matchedSequence

/-- The consecutive run of exact matches anchored at the primer's 3' end of a
site, in original-primer orientation. -/
def seedRun (site : BindingSite) : ℕ :=
  tailRun site.bindingSequence (pairedTemplate site)

/-- The number of positions of the binding region at which the primer does not
pair with the template. -/
def numBindingMismatches (site : BindingSite) : ℕ :=
  (site.bindingSequence.zip (pairedTemplate site)).countP fun ab =>
    decide (ab.1 ≠ ab.2)

/-- The wrapper the dialog injects
(`FindPrimerBindingSitesDialog/index.js:402-408`): the underlying Tm
calculator is called inside `try`/`catch`, a thrown error becomes `null`. -/
def dialogWrap (f : List Char → Except Unit ℤ) : List Char → Option ℤ :=
  fun s => (f s).toOption

/-- `findPrimerBindingSites` run with a Tm calculator that may throw
(`Except.error` models a JS exception).  The source has no `try`/`catch`
around the `calculateTm(bindingSeq)` call site
(`findPrimerBindingSites.js:163` and `:262`), so a throw while any raw
candidate is being constructed propagates and aborts the whole call; `args`'s
own `calculateTm` field is ignored in favour of `calcF`. -/
def findPrimerBindingSitesT (gcOf stabilityOf : List Char → ℤ)
    (args : FindArgs) (calcF : List Char → Except Unit ℤ) :
    Except Unit (List BindingSite) :=
  if args.primerSequence = [] ∨ args.fullSequence = [] then .ok []
  else
    let raw := rawResults gcOf stabilityOf { args with calculateTm := fun _ => none }
    if raw.any (fun s =>
        match calcF s.bindingSequence with
        | .error _ => true
        | .ok _ => false) then
      .error ()
    else
      .ok (findPrimerBindingSites gcOf stabilityOf
        { args with calculateTm := fun s => (calcF s).toOption })

/-- Forget the `tm` field of a site. -/
def eraseTm (site : BindingSite) : BindingSite :=
  { site with tm := none }

/-- Recompute the `tm` field of a site with the given calculator. -/
def setTm (calculateTm : List Char → Option ℤ) (site : BindingSite) :
    BindingSite :=
  { site with tm := calculateTm site.bindingSequence }

/-! ## Basic lemmas -/

theorem mem_intRange {lo hi x : ℤ} (hx : x ∈ intRange lo hi) :
    lo ≤ x ∧ x ≤ hi := by
  unfold intRange at hx
  obtain ⟨i, hi', rfl⟩ := List.mem_map.mp hx
  rw [List.mem_range] at hi'
  omega

theorem intRange_shift (lo hi : ℤ) :
    intRange lo hi = (intRange 0 (hi - lo)).map (fun x => x + lo) := by
  unfold intRange
  rw [List.map_map]
  have hn : (hi + 1 - lo).toNat = (hi - lo + 1 - 0).toNat := by omega
  rw [hn]
  exact List.map_congr_left fun i _ => by
    simp only [Function.comp_apply]
    ring

theorem getComplementChar_involutive (c : Char) :
    getComplementChar (getComplementChar c) = c := by
  unfold getComplementChar
  by_cases h1 : c = 'A'
  · simp [h1]
  · by_cases h2 : c = 'T'
    · simp [h1, h2]
    · by_cases h3 : c = 'G'
      · simp [h1, h2, h3]
      · by_cases h4 : c = 'C'
        · simp [h1, h2, h3, h4]
        · simp [h1, h2, h3, h4]

theorem getComplementChar_inj {a b : Char}
    (h : getComplementChar a = getComplementChar b) : a = b := by
  have := congrArg getComplementChar h
  rwa [getComplementChar_involutive, getComplementChar_involutive] at this

theorem length_reverseComplement (s : List Char) :
    (reverseComplement s).length = s.length := by
  simp [reverseComplement, getComplementSequenceString]

theorem leadRun_nil_right : ∀ a : List Char, leadRun a [] = 0
  | [] => rfl
  | _ :: _ => rfl

theorem leadRun_le_length_left : ∀ a b : List Char, leadRun a b ≤ a.length
  | [], _ => by simp [leadRun]
  | _ :: _, [] => by simp [leadRun_nil_right]
  | a :: as, b :: bs => by
    by_cases h : a = b
    · show (if a = b then leadRun as bs + 1 else 0) ≤ _
      rw [if_pos h]
      exact Nat.succ_le_succ (leadRun_le_length_left as bs)
    · show (if a = b then leadRun as bs + 1 else 0) ≤ _
      rw [if_neg h]
      exact Nat.zero_le _

theorem leadRun_le_length_right : ∀ a b : List Char, leadRun a b ≤ b.length
  | [], _ => by simp [leadRun]
  | _ :: _, [] => by simp [leadRun_nil_right]
  | a :: as, b :: bs => by
    by_cases h : a = b
    · show (if a = b then leadRun as bs + 1 else 0) ≤ _
      rw [if_pos h]
      exact Nat.succ_le_succ (leadRun_le_length_right as bs)
    · show (if a = b then leadRun as bs + 1 else 0) ≤ _
      rw [if_neg h]
      exact Nat.zero_le _

theorem leadRun_self : ∀ a : List Char, leadRun a a = a.length
  | [] => by simp [leadRun]
  | a :: as => by simp [leadRun, leadRun_self as]

theorem eq_of_leadRun_ge : ∀ {a b : List Char}, a.length = b.length →
    a.length ≤ leadRun a b → a = b
  | [], [], _, _ => rfl
  | [], _ :: _, h, _ => by simp at h
  | _ :: _, [], hlen, _ => by simp at hlen
  | a :: as, b :: bs, h, hr => by
    by_cases hab : a = b
    · subst hab
      rw [show leadRun (a :: as) (a :: bs) =
          (if a = a then leadRun as bs + 1 else 0) from rfl, if_pos rfl] at hr
      simp only [List.length_cons] at hr h
      exact congrArg _ (eq_of_leadRun_ge (by omega) (by omega))
    · simp [leadRun, hab] at hr

theorem take_leadRun_eq : ∀ a b : List Char,
    a.take (leadRun a b) = b.take (leadRun a b)
  | [], _ => by simp [leadRun]
  | _ :: _, [] => by simp [leadRun]
  | a :: as, b :: bs => by
    by_cases h : a = b
    · simp [leadRun, h, take_leadRun_eq as bs]
    · simp [leadRun, h]

theorem leadRun_take : ∀ (a b : List Char) (n : ℕ),
    leadRun (a.take n) (b.take n) = min (leadRun a b) n
  | [], b, n => by simp [leadRun]
  | a :: as, [], n => by simp [List.take_nil, leadRun_nil_right]
  | a :: as, b :: bs, 0 => by simp [leadRun]
  | a :: as, b :: bs, n + 1 => by
    by_cases h : a = b
    · subst h
      rw [List.take_succ_cons, List.take_succ_cons]
      show (if a = a then leadRun (as.take n) (bs.take n) + 1 else 0) = _
      rw [if_pos rfl, leadRun_take as bs n]
      show _ = (if a = a then leadRun as bs + 1 else 0) ⊓ (n + 1)
      rw [if_pos rfl]
      omega
    · simp [leadRun, h]

theorem getD_eq_of_lt_leadRun {a b : List Char} {i : ℕ} (hi : i < leadRun a b) :
    a.getD i ' ' = b.getD i ' ' := by
  have h1 : a.getD i ' ' = (a.take (leadRun a b)).getD i ' ' := by
    rw [List.getD, List.getD, List.get?_take hi]
  have h2 : b.getD i ' ' = (b.take (leadRun a b)).getD i ' ' := by
    rw [List.getD, List.getD, List.get?_take hi]
  rw [h1, h2, take_leadRun_eq]

theorem tailRun_le_length_left (a b : List Char) : tailRun a b ≤ a.length := by
  simpa using leadRun_le_length_left a.reverse b.reverse

theorem tailRun_le_length_right (a b : List Char) : tailRun a b ≤ b.length := by
  simpa using leadRun_le_length_right a.reverse b.reverse

theorem tailRun_drop (a b : List Char) (n : ℕ) (h : a.length = b.length) :
    tailRun (a.drop n) (b.drop n) = min (tailRun a b) (a.length - n) := by
  unfold tailRun
  rw [List.reverse_drop, List.reverse_drop, h, ← h, leadRun_take, h, ← h]

theorem drop_tailRun_eq (a b : List Char) :
    a.drop (a.length - tailRun a b) = b.drop (b.length - tailRun a b) := by
  have ha : a.drop (a.length - tailRun a b) =
      (a.reverse.take (tailRun a b)).reverse := by
    rw [List.reverse_take, List.reverse_reverse, List.length_reverse]
  have hb : b.drop (b.length - tailRun a b) =
      (b.reverse.take (tailRun a b)).reverse := by
    rw [List.reverse_take, List.reverse_reverse, List.length_reverse]
  rw [ha, hb, tailRun, take_leadRun_eq]

/-! ## The extension loop -/

theorem extendAux_spec (m : ℤ) (posOf : ℕ → ℕ) :
    ∀ (lst : List (Char × Char)) (t0 : ℕ) (mms0 : List ℕ) (bl0 : ℕ),
    ∃ c, c ≤ lst.length ∧
      (extendAux m posOf lst t0 mms0 bl0).2 = bl0 + c ∧
      ∃ extra, (extendAux m posOf lst t0 mms0 bl0).1 = mms0 ++ extra ∧
        extra.length = (lst.take c).countP (fun ab => decide (ab.1 ≠ ab.2)) ∧
        ∀ x ∈ extra, ∃ t, t < c ∧ x = posOf (t0 + t) ∧
          (lst.getD t default).1 ≠ (lst.getD t default).2
  | [], t0, mms0, bl0 =>
    ⟨0, Nat.le_refl _, by simp [extendAux], [], by simp [extendAux],
      by simp, by simp⟩
  | ab :: rest, t0, mms0, bl0 => by
    by_cases hab : ab.1 = ab.2
    · have heq : extendAux m posOf (ab :: rest) t0 mms0 bl0 =
          extendAux m posOf rest (t0 + 1) mms0 (bl0 + 1) := by
        simp [extendAux, hab]
      obtain ⟨c, hc, hsnd, extra, hfst, hlen, hmem⟩ :=
        extendAux_spec m posOf rest (t0 + 1) mms0 (bl0 + 1)
      refine ⟨c + 1, by simpa using Nat.succ_le_succ hc, ?_, extra, ?_, ?_, ?_⟩
      · rw [heq, hsnd]; omega
      · rw [heq, hfst]
      · rw [List.take_succ_cons, List.countP_cons]
        simp [hab, hlen]
      · intro x hx
        obtain ⟨t, ht, hxe, hmis⟩ := hmem x hx
        exact ⟨t + 1, by omega, by rw [hxe]; congr 1; omega, by
          simpa [List.getD_cons_succ] using hmis⟩
    · by_cases hbud : (mms0.length : ℤ) < m
      · have heq : extendAux m posOf (ab :: rest) t0 mms0 bl0 =
            extendAux m posOf rest (t0 + 1) (mms0 ++ [posOf t0]) (bl0 + 1) := by
          simp [extendAux, hab, hbud]
        obtain ⟨c, hc, hsnd, extra, hfst, hlen, hmem⟩ :=
          extendAux_spec m posOf rest (t0 + 1) (mms0 ++ [posOf t0]) (bl0 + 1)
        refine ⟨c + 1, by simpa using Nat.succ_le_succ hc, ?_,
          posOf t0 :: extra, ?_, ?_, ?_⟩
        · rw [heq, hsnd]; omega
        · rw [heq, hfst, List.append_assoc]; rfl
        · rw [List.take_succ_cons, List.countP_cons]
          simp [hab, hlen]
        · intro x hx
          rcases List.mem_cons.mp hx with rfl | hx'
          · exact ⟨0, by omega, by simp, by simpa [List.getD_cons_zero] using hab⟩
          · obtain ⟨t, ht, hxe, hmis⟩ := hmem x hx'
            exact ⟨t + 1, by omega, by rw [hxe]; congr 1; omega, by
              simpa [List.getD_cons_succ] using hmis⟩
      · have heq : extendAux m posOf (ab :: rest) t0 mms0 bl0 = (mms0, bl0) := by
          simp [extendAux, hab, hbud]
        exact ⟨0, Nat.zero_le _, by simp [heq], [], by simp [heq], by simp,
          by simp⟩

/-! ## Unfolding and validity of the two matchers -/

theorem findOptimalBinding_eq (p w : List Char) (m k : ℤ) :
    findOptimalBinding p w m k =
      if p.length ≠ w.length then ⟨false, 0, [], 0⟩
      else if p.getD (p.length - 1) ' ' ≠ w.getD (p.length - 1) ' ' then
        ⟨false, 0, [], 0⟩
      else if (tailRun p w : ℤ) < k then ⟨false, 0, [], tailRun p w⟩
      else
        ⟨true,
          (extendAux m (fun t => p.length - tailRun p w - 1 - t)
            (((p.zip w).take (p.length - tailRun p w)).reverse) 0 []
            (tailRun p w)).2,
          (extendAux m (fun t => p.length - tailRun p w - 1 - t)
            (((p.zip w).take (p.length - tailRun p w)).reverse) 0 []
            (tailRun p w)).1,
          tailRun p w⟩ := rfl

theorem findOptimalBindingFrom5Prime_eq (p w : List Char) (m k : ℤ) :
    findOptimalBindingFrom5Prime p w m k =
      if p.length ≠ w.length then ⟨false, 0, [], 0⟩
      else if p.getD 0 ' ' ≠ w.getD 0 ' ' then ⟨false, 0, [], 0⟩
      else if (leadRun p w : ℤ) < k then ⟨false, 0, [], leadRun p w⟩
      else
        ⟨true,
          (extendAux m (fun t => leadRun p w + t)
            ((p.zip w).drop (leadRun p w)) 0 [] (leadRun p w)).2,
          (extendAux m (fun t => leadRun p w + t)
            ((p.zip w).drop (leadRun p w)) 0 [] (leadRun p w)).1,
          leadRun p w⟩ := rfl

theorem findOptimalBinding_valid_spec {p w : List Char} {m k : ℤ}
    (hv : (findOptimalBinding p w m k).isValid = true) :
    p.length = w.length ∧ k ≤ (tailRun p w : ℤ) ∧
    ∃ c, c ≤ p.length - tailRun p w ∧
      (findOptimalBinding p w m k).bindingLength = tailRun p w + c ∧
      (findOptimalBinding p w m k).mismatchPositions.length =
        ((((p.zip w).take (p.length - tailRun p w)).reverse).take c).countP
          (fun ab => decide (ab.1 ≠ ab.2)) ∧
      ∀ x ∈ (findOptimalBinding p w m k).mismatchPositions,
        ∃ t, t < c ∧ x = p.length - tailRun p w - 1 - t ∧
          ((((p.zip w).take (p.length - tailRun p w)).reverse).getD t default).1 ≠
          ((((p.zip w).take (p.length - tailRun p w)).reverse).getD t default).2 := by
  rw [findOptimalBinding_eq] at hv ⊢
  split_ifs at hv ⊢ with h1 h2 h3
  push_neg at h1
  dsimp only at hv ⊢
  refine ⟨h1, by omega, ?_⟩
  obtain ⟨c, hc, hsnd, extra, hfst, hlen, hmem⟩ :=
    extendAux_spec m (fun t => p.length - tailRun p w - 1 - t)
      (((p.zip w).take (p.length - tailRun p w)).reverse) 0 [] (tailRun p w)
  refine ⟨c, ?_, ?_, ?_, ?_⟩
  · calc c ≤ (((p.zip w).take (p.length - tailRun p w)).reverse).length := hc
      _ ≤ p.length - tailRun p w := by
        simp [List.length_take, List.length_zip]
  · exact hsnd
  · rw [hfst]
    simpa using hlen
  · intro x hx
    rw [hfst] at hx
    simpa using hmem x (by simpa using hx)

theorem findOptimalBindingFrom5Prime_valid_spec {p w : List Char} {m k : ℤ}
    (hv : (findOptimalBindingFrom5Prime p w m k).isValid = true) :
    p.length = w.length ∧ k ≤ (leadRun p w : ℤ) ∧
    ∃ c, c ≤ p.length - leadRun p w ∧
      (findOptimalBindingFrom5Prime p w m k).bindingLength = leadRun p w + c ∧
      (findOptimalBindingFrom5Prime p w m k).mismatchPositions.length =
        (((p.zip w).drop (leadRun p w)).take c).countP
          (fun ab => decide (ab.1 ≠ ab.2)) ∧
      ∀ x ∈ (findOptimalBindingFrom5Prime p w m k).mismatchPositions,
        ∃ t, t < c ∧ x = leadRun p w + t ∧
          (((p.zip w).drop (leadRun p w)).getD t default).1 ≠
          (((p.zip w).drop (leadRun p w)).getD t default).2 := by
  rw [findOptimalBindingFrom5Prime_eq] at hv ⊢
  split_ifs at hv ⊢ with h1 h2 h3
  push_neg at h1
  dsimp only at hv ⊢
  refine ⟨h1, by omega, ?_⟩
  obtain ⟨c, hc, hsnd, extra, hfst, hlen, hmem⟩ :=
    extendAux_spec m (fun t => leadRun p w + t)
      ((p.zip w).drop (leadRun p w)) 0 [] (leadRun p w)
  refine ⟨c, ?_, ?_, ?_, ?_⟩
  · calc c ≤ (((p.zip w).drop (leadRun p w)).length) := hc
      _ ≤ p.length - leadRun p w := by
        simp [List.length_drop, List.length_zip]
        omega
  · exact hsnd
  · rw [hfst]
    simpa using hlen
  · intro x hx
    rw [hfst] at hx
    simpa using hmem x (by simpa using hx)

/-! ## Scan windows and the unreachable circularity guards -/

theorem length_templateRegionFwd (template : List Char) (s : ℤ) (L : ℕ) :
    (templateRegionFwd template s L).length = L := by
  simp [templateRegionFwd]

theorem length_templateRegionRev (template : List Char) (s : ℤ) (L : ℕ) :
    (templateRegionRev template s L).length = L := by
  simp [templateRegionRev]

theorem templateRegionFwd_eq_rev (template : List Char) (s : ℤ) (L : ℕ) :
    templateRegionFwd template s L = templateRegionRev template s L := by
  unfold templateRegionFwd templateRegionRev
  refine List.map_congr_left fun i _ => ?_
  rw [Int.add_emod_self]

theorem templateRegionRev_getD (template : List Char) (s : ℤ) (L : ℕ)
    (hs : 0 ≤ s) (hL : s + L ≤ template.length) (i : ℕ) (hi : i < L) :
    (templateRegionRev template s L).getD i ' ' =
      template.getD (s.toNat + i) ' ' := by
  have h1 : (templateRegionRev template s L).getD i ' ' =
      template.getD (((s + (i : ℤ)) % template.length).toNat) ' ' := by
    unfold templateRegionRev
    rw [List.getD_eq_getElem _ _ (by simpa using hi), List.getElem_map,
      List.getElem_range]
  rw [h1]
  congr 1
  have hmod : (s + (i : ℤ)) % template.length = s + i :=
    Int.emod_eq_of_lt (by omega) (by omega)
  omega

theorem forwardStep_circ_irrelevant (primer template : List Char) (m k : ℤ)
    (tmF : List Char → Option ℤ) (gcOf stabilityOf : List Char → ℤ)
    (c₁ c₂ : Bool) (e : ℤ) (he : (primer.length : ℤ) - 1 ≤ e) :
    forwardStep primer template m k c₁ tmF gcOf stabilityOf e =
    forwardStep primer template m k c₂ tmF gcOf stabilityOf e := by
  unfold forwardStep
  rw [if_neg (by omega : ¬(e - primer.length + 1 < 0 ∧ ¬c₁)),
    if_neg (by omega : ¬(e - primer.length + 1 < 0 ∧ ¬c₂))]

theorem reverseStep_circ_irrelevant (primer template : List Char) (m k : ℤ)
    (tmF : List Char → Option ℤ) (gcOf stabilityOf : List Char → ℤ)
    (c₁ c₂ : Bool) (s : ℤ)
    (hs : s ≤ (template.length : ℤ) - primer.length) :
    reverseStep primer template m k c₁ tmF gcOf stabilityOf s =
    reverseStep primer template m k c₂ tmF gcOf stabilityOf s := by
  unfold reverseStep
  rw [if_neg (by omega : ¬(s + primer.length - 1 ≥ (template.length : ℤ) ∧ ¬c₁)),
    if_neg (by omega : ¬(s + primer.length - 1 ≥ (template.length : ℤ) ∧ ¬c₂))]

theorem searchForBindingSites_circ_irrelevant (primer template : List Char)
    (fwd : Bool) (m k : ℤ) (c₁ c₂ : Bool) (tmF : List Char → Option ℤ)
    (gcOf stabilityOf : List Char → ℤ) :
    searchForBindingSites primer template fwd m k c₁ tmF gcOf stabilityOf =
    searchForBindingSites primer template fwd m k c₂ tmF gcOf stabilityOf := by
  unfold searchForBindingSites
  cases fwd
  · simp only [Bool.false_eq_true, if_false]
    exact List.filterMap_congr fun s hs =>
      reverseStep_circ_irrelevant primer template m k tmF gcOf stabilityOf c₁ c₂ s
        (mem_intRange hs).2
  · simp only [if_true]
    exact List.filterMap_congr fun e he =>
      forwardStep_circ_irrelevant primer template m k tmF gcOf stabilityOf c₁ c₂ e
        (mem_intRange he).1

/-! ## The position sort -/

theorem insertByStart_perm (x : BindingSite) :
    ∀ l : List BindingSite, List.Perm (insertByStart x l) (x :: l)
  | [] => List.Perm.refl _
  | y :: ys => by
    unfold insertByStart
    split_ifs with h
    · exact List.Perm.trans (List.Perm.cons y (insertByStart_perm x ys))
        (List.Perm.swap x y ys)
    · exact List.Perm.refl _

theorem sortByStart_aux_perm :
    ∀ (l acc : List BindingSite),
      List.Perm (l.foldl (fun a x => insertByStart x a) acc) (acc ++ l)
  | [], acc => by simp
  | x :: xs, acc => by
    have h1 : (x :: xs).foldl (fun a y => insertByStart y a) acc
        = xs.foldl (fun a y => insertByStart y a) (insertByStart x acc) := rfl
    rw [h1]
    exact List.Perm.trans (sortByStart_aux_perm xs _)
      (List.Perm.trans ((insertByStart_perm x acc).append_right xs)
        List.perm_middle.symm)

theorem sortByStart_perm (l : List BindingSite) : List.Perm (sortByStart l) l := by
  simpa using sortByStart_aux_perm l []

theorem mem_sortByStart {x : BindingSite} {l : List BindingSite} :
    x ∈ sortByStart l ↔ x ∈ l :=
  (sortByStart_perm l).mem_iff

theorem insertByStart_sorted {x : BindingSite} :
    ∀ {l : List BindingSite},
      l.Pairwise (fun a b => a.start ≤ b.start) →
      (insertByStart x l).Pairwise (fun a b => a.start ≤ b.start)
  | [], _ => List.pairwise_singleton _ _
  | y :: ys, hp => by
    unfold insertByStart
    rcases List.pairwise_cons.mp hp with ⟨hy, hys⟩
    split_ifs with h
    · refine List.pairwise_cons.mpr ⟨?_, insertByStart_sorted hys⟩
      intro z hz
      rcases List.mem_cons.mp ((insertByStart_perm x ys).mem_iff.mp hz) with rfl | hz'
      · exact h
      · exact hy z hz'
    · refine List.pairwise_cons.mpr ⟨?_, hp⟩
      intro z hz
      rcases List.mem_cons.mp hz with rfl | hz'
      · omega
      · exact le_trans (by omega) (hy z hz')

theorem sortByStart_sorted (l : List BindingSite) :
    (sortByStart l).Pairwise (fun a b => a.start ≤ b.start) := by
  suffices h : ∀ (l acc : List BindingSite),
      acc.Pairwise (fun a b => a.start ≤ b.start) →
      (l.foldl (fun a x => insertByStart x a) acc).Pairwise
        (fun a b => a.start ≤ b.start) from
    h l [] List.Pairwise.nil
  intro l
  induction l with
  | nil => exact fun acc h => h
  | cons x xs ih => exact fun acc h => ih _ (insertByStart_sorted h)

/-! ## The dominance filter -/

theorem dedupInner_cons_eq (rs : List BindingSite) (i j : ℕ) (js dom : List ℕ) :
    dedupInner rs i (j :: js) dom =
      if j ∈ dom then dedupInner rs i js dom
      else if (rs.getD i default).forward ≠ (rs.getD j default).forward then
        dedupInner rs i js dom
      else if overlapsMoreThanHalf (rs.getD i default) (rs.getD j default) then
        dedupInner rs i js (dom ++
          [if getBetterBindingSite (rs.getD i default) (rs.getD j default)
            then j else i])
      else dedupInner rs i js dom := rfl

theorem mem_dedupInner_of_mem {rs : List BindingSite} {i x : ℕ} :
    ∀ {js dom : List ℕ}, x ∈ dom → x ∈ dedupInner rs i js dom
  | [], _, hx => hx
  | j :: js, dom, hx => by
    rw [dedupInner_cons_eq]
    by_cases h1 : j ∈ dom
    · rw [if_pos h1]; exact mem_dedupInner_of_mem hx
    · rw [if_neg h1]
      by_cases h2 : (rs.getD i default).forward ≠ (rs.getD j default).forward
      · rw [if_pos h2]; exact mem_dedupInner_of_mem hx
      · rw [if_neg h2]
        by_cases h3 :
            overlapsMoreThanHalf (rs.getD i default) (rs.getD j default) = true
        · rw [if_pos h3]; exact mem_dedupInner_of_mem (List.mem_append_left _ hx)
        · rw [if_neg h3]; exact mem_dedupInner_of_mem hx

theorem mem_dedupOuter_of_mem {rs : List BindingSite} {x : ℕ} :
    ∀ {is dom : List ℕ}, x ∈ dom → x ∈ dedupOuter rs is dom
  | [], _, hx => hx
  | i :: is, dom, hx => by
    unfold dedupOuter
    split_ifs with h
    · exact mem_dedupOuter_of_mem hx
    · exact mem_dedupOuter_of_mem (mem_dedupInner_of_mem hx)

theorem dedupInner_covers {rs : List BindingSite} {i j : ℕ}
    (hstrand : (rs.getD i default).forward = (rs.getD j default).forward)
    (hover : overlapsMoreThanHalf (rs.getD i default) (rs.getD j default) = true) :
    ∀ {js dom : List ℕ}, j ∈ js →
      i ∈ dedupInner rs i js dom ∨ j ∈ dedupInner rs i js dom
  | [], _, hj => absurd hj (List.not_mem_nil j)
  | j' :: js, dom, hj => by
    rcases List.mem_cons.mp hj with rfl | hj'
    · rw [dedupInner_cons_eq]
      by_cases h1 : j ∈ dom
      · rw [if_pos h1]; exact Or.inr (mem_dedupInner_of_mem h1)
      · rw [if_neg h1, if_neg (fun hne => hne hstrand), if_pos hover]
        by_cases hb :
            getBetterBindingSite (rs.getD i default) (rs.getD j default) = true
        · rw [if_pos hb]
          exact Or.inr (mem_dedupInner_of_mem (by simp))
        · rw [if_neg hb]
          exact Or.inl (mem_dedupInner_of_mem (by simp))
    · rw [dedupInner_cons_eq]
      by_cases h1 : j' ∈ dom
      · rw [if_pos h1]; exact dedupInner_covers hstrand hover hj'
      · rw [if_neg h1]
        by_cases h2 : (rs.getD i default).forward ≠ (rs.getD j' default).forward
        · rw [if_pos h2]; exact dedupInner_covers hstrand hover hj'
        · rw [if_neg h2]
          by_cases h3 :
              overlapsMoreThanHalf (rs.getD i default) (rs.getD j' default) = true
          · rw [if_pos h3]; exact dedupInner_covers hstrand hover hj'
          · rw [if_neg h3]; exact dedupInner_covers hstrand hover hj'

theorem dedupOuter_covers {rs : List BindingSite} {i j : ℕ}
    (hij : i < j) (hj : j < rs.length)
    (hstrand : (rs.getD i default).forward = (rs.getD j default).forward)
    (hover : overlapsMoreThanHalf (rs.getD i default) (rs.getD j default) = true) :
    ∀ {is dom : List ℕ}, i ∈ is →
      i ∈ dedupOuter rs is dom ∨ j ∈ dedupOuter rs is dom
  | [], _, hi => absurd hi (List.not_mem_nil i)
  | i' :: is, dom, hi => by
    rcases List.mem_cons.mp hi with rfl | hi'
    · unfold dedupOuter
      split_ifs with h
      · exact Or.inl (mem_dedupOuter_of_mem h)
      · have hjmem : j ∈ List.range' (i + 1) (rs.length - (i + 1)) := by
          rw [List.mem_range'_1]
          omega
        rcases @dedupInner_covers rs i j hstrand hover _ dom hjmem with hi2 | hj2
        · exact Or.inl (mem_dedupOuter_of_mem hi2)
        · exact Or.inr (mem_dedupOuter_of_mem hj2)
    · unfold dedupOuter
      split_ifs with h
      · exact dedupOuter_covers hij hj hstrand hover hi'
      · exact dedupOuter_covers hij hj hstrand hover hi'

theorem dedupDominated_covers {rs : List BindingSite} {i j : ℕ}
    (hij : i < j) (hj : j < rs.length)
    (hstrand : (rs.getD i default).forward = (rs.getD j default).forward)
    (hover : overlapsMoreThanHalf (rs.getD i default) (rs.getD j default) = true) :
    i ∈ dedupDominated rs ∨ j ∈ dedupDominated rs :=
  dedupOuter_covers hij hj hstrand hover (by rw [List.mem_range]; omega)

theorem enumFrom_filter_map_sublist (p : ℕ × BindingSite → Bool) :
    ∀ (n : ℕ) (l : List BindingSite),
      List.Sublist (((List.enumFrom n l).filter p).map Prod.snd) l
  | _, [] => by simp
  | n, x :: xs => by
    rw [List.enumFrom_cons, List.filter_cons]
    by_cases hp : p (n, x)
    · rw [if_pos hp, List.map_cons]
      exact List.Sublist.cons₂ x (enumFrom_filter_map_sublist p (n + 1) xs)
    · rw [if_neg hp]
      exact List.Sublist.cons x (enumFrom_filter_map_sublist p (n + 1) xs)

theorem dedupDominated_short {rs : List BindingSite} (h : rs.length ≤ 1) :
    dedupDominated rs = [] := by
  match rs, h with
  | [], _ => rfl
  | [x], _ => rfl

theorem deduplicateBindingSites_eq (rs : List BindingSite) :
    deduplicateBindingSites rs =
      ((rs.enum.filter fun p => p.1 ∉ dedupDominated rs).map Prod.snd) := by
  unfold deduplicateBindingSites
  split_ifs with h
  · rw [dedupDominated_short h]
    simp [List.enum_map_snd]
  · rfl

theorem deduplicateBindingSites_sublist (rs : List BindingSite) :
    List.Sublist (deduplicateBindingSites rs) rs := by
  rw [deduplicateBindingSites_eq]
  exact enumFrom_filter_map_sublist _ 0 rs

theorem mem_of_mem_deduplicate {rs : List BindingSite} {x : BindingSite}
    (h : x ∈ deduplicateBindingSites rs) : x ∈ rs :=
  (deduplicateBindingSites_sublist rs).subset h

/-! ## Decomposing scan steps and pipeline membership -/

theorem forwardStep_eq_some {primer template : List Char} {m k : ℤ}
    {circ : Bool} {tmF : List Char → Option ℤ} {gcOf stabilityOf : List Char → ℤ}
    {e : ℤ} {site : BindingSite}
    (hg : ¬(e - (primer.length : ℤ) + 1 < 0 ∧ ¬circ))
    (h : forwardStep primer template m k circ tmF gcOf stabilityOf e = some site) :
    (findOptimalBinding primer
      (templateRegionFwd template (e - primer.length + 1) primer.length) m
      k).isValid = true ∧
    site = mkForwardSite primer template.length
      (templateRegionFwd template (e - primer.length + 1) primer.length)
      (e - primer.length + 1) e
      (findOptimalBinding primer
        (templateRegionFwd template (e - primer.length + 1) primer.length) m k)
      tmF gcOf stabilityOf := by
  unfold forwardStep at h
  rw [if_neg hg] at h
  dsimp only at h
  split_ifs at h with hv
  · exact ⟨hv, (Option.some.inj h).symm⟩

theorem reverseStep_eq_some {primer template : List Char} {m k : ℤ}
    {circ : Bool} {tmF : List Char → Option ℤ} {gcOf stabilityOf : List Char → ℤ}
    {s : ℤ} {site : BindingSite}
    (hg : ¬(s + (primer.length : ℤ) - 1 ≥ (template.length : ℤ) ∧ ¬circ))
    (h : reverseStep primer template m k circ tmF gcOf stabilityOf s = some site) :
    (findOptimalBindingFrom5Prime (reverseComplement primer)
      (templateRegionRev template s primer.length) m k).isValid = true ∧
    site = mkReverseSite primer (reverseComplement primer)
      (templateRegionRev template s primer.length) s
      (findOptimalBindingFrom5Prime (reverseComplement primer)
        (templateRegionRev template s primer.length) m k)
      tmF gcOf stabilityOf := by
  unfold reverseStep at h
  rw [if_neg hg] at h
  dsimp only at h
  split_ifs at h with hv
  · exact ⟨hv, (Option.some.inj h).symm⟩

theorem mem_searchForward {primer template : List Char} {m k : ℤ} {circ : Bool}
    {tmF : List Char → Option ℤ} {gcOf stabilityOf : List Char → ℤ}
    {site : BindingSite}
    (h : site ∈ searchForBindingSites primer template true m k circ tmF gcOf
      stabilityOf) :
    ∃ e : ℤ, (primer.length : ℤ) - 1 ≤ e ∧ e ≤ (template.length : ℤ) - 1 ∧
      (findOptimalBinding primer
        (templateRegionFwd template (e - primer.length + 1) primer.length) m
        k).isValid = true ∧
      site = mkForwardSite primer template.length
        (templateRegionFwd template (e - primer.length + 1) primer.length)
        (e - primer.length + 1) e
        (findOptimalBinding primer
          (templateRegionFwd template (e - primer.length + 1) primer.length) m k)
        tmF gcOf stabilityOf := by
  unfold searchForBindingSites at h
  rw [if_pos rfl] at h
  obtain ⟨e, he, hstep⟩ := List.mem_filterMap.mp h
  obtain ⟨he1, he2⟩ := mem_intRange he
  obtain ⟨hv, hsite⟩ := forwardStep_eq_some (by omega) hstep
  exact ⟨e, he1, he2, hv, hsite⟩

theorem mem_searchReverse {primer template : List Char} {m k : ℤ} {circ : Bool}
    {tmF : List Char → Option ℤ} {gcOf stabilityOf : List Char → ℤ}
    {site : BindingSite}
    (h : site ∈ searchForBindingSites primer template false m k circ tmF gcOf
      stabilityOf) :
    ∃ s : ℤ, 0 ≤ s ∧ s ≤ (template.length : ℤ) - primer.length ∧
      (findOptimalBindingFrom5Prime (reverseComplement primer)
        (templateRegionRev template s primer.length) m k).isValid = true ∧
      site = mkReverseSite primer (reverseComplement primer)
        (templateRegionRev template s primer.length) s
        (findOptimalBindingFrom5Prime (reverseComplement primer)
          (templateRegionRev template s primer.length) m k)
        tmF gcOf stabilityOf := by
  unfold searchForBindingSites at h
  rw [if_neg (by simp)] at h
  obtain ⟨s, hs, hstep⟩ := List.mem_filterMap.mp h
  obtain ⟨hs1, hs2⟩ := mem_intRange hs
  obtain ⟨hv, hsite⟩ := reverseStep_eq_some (by omega) hstep
  exact ⟨s, hs1, hs2, hv, hsite⟩

theorem mem_rawResults {gcOf stabilityOf : List Char → ℤ} {args : FindArgs}
    {site : BindingSite} (h : site ∈ rawResults gcOf stabilityOf args) :
    site ∈ searchForBindingSites (normalizedPrimer args.primerSequence)
        (args.fullSequence.map Char.toUpper) true args.maxMismatches
        args.minBindingRegion args.isCircular args.calculateTm gcOf stabilityOf ∨
      site ∈ searchForBindingSites (normalizedPrimer args.primerSequence)
        (args.fullSequence.map Char.toUpper) false args.maxMismatches
        args.minBindingRegion args.isCircular args.calculateTm gcOf stabilityOf := by
  unfold rawResults at h
  rcases List.mem_append.mp h with h1 | h2
  · exact Or.inl h1
  · right
    by_cases hsr : args.searchReverseStrand = true
    · rwa [if_pos hsr] at h2
    · rw [if_neg hsr] at h2
      exact absurd h2 (List.not_mem_nil site)

theorem mem_assignIds {l : List BindingSite} {site : BindingSite}
    (h : site ∈ assignIds l) :
    ∃ n : ℕ, ∃ y ∈ l, site = { y with id := "binding-site-" ++ toString n } := by
  unfold assignIds at h
  obtain ⟨⟨n, y⟩, hmem, hsite⟩ := List.mem_map.mp h
  obtain ⟨_, hy⟩ := List.mem_enum hmem
  exact ⟨n, y, hy ▸ List.getElem_mem _, hsite.symm⟩

/-- Every site of the final output is a raw scan candidate with its `id`
rewritten. -/
theorem mem_findPrimerBindingSites {gcOf stabilityOf : List Char → ℤ}
    {args : FindArgs} {site : BindingSite}
    (h : site ∈ findPrimerBindingSites gcOf stabilityOf args) :
    ∃ y ∈ rawResults gcOf stabilityOf args, ∃ n : ℕ,
      site = { y with id := "binding-site-" ++ toString n } := by
  unfold findPrimerBindingSites at h
  split_ifs at h with hempty
  · exact absurd h (List.not_mem_nil site)
  · obtain ⟨n, y, hy, hsite⟩ := mem_assignIds h
    refine ⟨y, ?_, n, hsite⟩
    exact mem_sortByStart.mp (mem_of_mem_deduplicate hy)

/-! ## Pipeline-level consequences -/

theorem rawResults_circ_irrelevant (gcOf stabilityOf : List Char → ℤ)
    (args : FindArgs) (c₁ c₂ : Bool) :
    rawResults gcOf stabilityOf { args with isCircular := c₁ } =
    rawResults gcOf stabilityOf { args with isCircular := c₂ } := by
  unfold rawResults
  dsimp only
  rw [searchForBindingSites_circ_irrelevant _ _ true _ _ c₁ c₂ _ _ _,
    searchForBindingSites_circ_irrelevant _ _ false _ _ c₁ c₂ _ _ _]

/-- A trivial stand-in for the externally supplied GC% / 3'-stability
calculators in concrete evaluations. -/
def constZero : List Char → ℤ := fun _ => 0

theorem enumFrom_pairwise {R : BindingSite → BindingSite → Prop} :
    ∀ (n : ℕ) {l : List BindingSite}, l.Pairwise R →
      (List.enumFrom n l).Pairwise (fun p q => R p.2 q.2)
  | _, [], _ => List.Pairwise.nil
  | n, x :: xs, h => by
    rw [List.enumFrom_cons]
    rcases List.pairwise_cons.mp h with ⟨hx, hxs⟩
    refine List.pairwise_cons.mpr ⟨?_, enumFrom_pairwise (n + 1) hxs⟩
    rintro ⟨i, q⟩ hq
    obtain ⟨-, -, hq2⟩ := List.mem_enumFrom hq
    exact hx q (hq2 ▸ List.getElem_mem _)

theorem assignIds_pairwise {l : List BindingSite}
    (h : l.Pairwise (fun a b => a.start ≤ b.start)) :
    (assignIds l).Pairwise (fun a b => a.start ≤ b.start) := by
  unfold assignIds
  rw [List.pairwise_map]
  exact enumFrom_pairwise 0 h

theorem enumFrom_map_getD :
    ∀ (l : List BindingSite) (n i : ℕ), i < l.length →
      ((List.enumFrom n l).map
        (fun p => { p.2 with id := "binding-site-" ++ toString p.1 })).getD i default
      = { l.getD i default with id := "binding-site-" ++ toString (n + i) }
  | [], _, i, hi => absurd hi (by simp)
  | x :: xs, n, 0, _ => by simp [List.enumFrom_cons]
  | x :: xs, n, i + 1, hi => by
    rw [List.enumFrom_cons, List.map_cons, List.getD_cons_succ,
      List.getD_cons_succ, enumFrom_map_getD xs (n + 1) i
        (by simp only [List.length_cons] at hi; omega)]
    have : n + 1 + i = n + (i + 1) := by omega
    rw [this]

theorem assignIds_getD_id (l : List BindingSite) (i : ℕ) (hi : i < l.length) :
    ((assignIds l).getD i default).id = "binding-site-" ++ toString i := by
  unfold assignIds
  rw [show l.enum = List.enumFrom 0 l from rfl, enumFrom_map_getD l 0 i hi]
  simp

theorem length_assignIds (l : List BindingSite) :
    (assignIds l).length = l.length := by
  simp [assignIds]

/-! ## Claim theorems -/

/-- C9: if `primerSequence` is empty or `fullSequence` is empty,
`findPrimerBindingSites` returns the empty array (and, being a total
function, raises no error). -/
theorem claim_C9 :
    (∀ (gcOf stabilityOf : List Char → ℤ) (args : FindArgs),
      args.primerSequence = [] →
      findPrimerBindingSites gcOf stabilityOf args = []) ∧
    (∀ (gcOf stabilityOf : List Char → ℤ) (args : FindArgs),
      args.fullSequence = [] →
      findPrimerBindingSites gcOf stabilityOf args = []) := by
  constructor
  · intro gcOf stabilityOf args h
    unfold findPrimerBindingSites
    rw [if_pos (Or.inl h)]
  · intro gcOf stabilityOf args h
    unfold findPrimerBindingSites
    rw [if_pos (Or.inr h)]

/-- Witness for C9 at a concrete input. -/
theorem claim_C9_witness :
    findPrimerBindingSites constZero constZero
      { primerSequence := [], fullSequence := "ACGT".toList } = [] ∧
    findPrimerBindingSites constZero constZero
      { primerSequence := "ACGT".toList, fullSequence := [] } = [] :=
  ⟨claim_C9.1 constZero constZero _ rfl, claim_C9.2 constZero constZero _ rfl⟩

/-- C10 (implicit): the output with `isCircular = true` is identical to the
output with `isCircular = false` for every input — the scan-loop bounds make
the out-of-range guards unreachable and the modulo arithmetic never wraps, so
the parameter has no effect. -/
theorem claim_C10 (gcOf stabilityOf : List Char → ℤ) (args : FindArgs) :
    findPrimerBindingSites gcOf stabilityOf { args with isCircular := true } =
    findPrimerBindingSites gcOf stabilityOf { args with isCircular := false } := by
  have hsorted :
      sortedResults gcOf stabilityOf { args with isCircular := true } =
      sortedResults gcOf stabilityOf { args with isCircular := false } := by
    unfold sortedResults
    rw [rawResults_circ_irrelevant gcOf stabilityOf args true false]
  unfold findPrimerBindingSites
  dsimp only
  rw [hsorted]

/-- C1 (code bug): the concrete failing input.  The primer occurs exactly
across the wrap boundary of this 50 bp circular template (last eight bases ++
first eight bases, as the second conjunct verifies), yet the search returns
no binding site even with `isCircular = true` (and likewise with
`isCircular = false`): the scan loops never generate a window that straddles
the boundary, so the claimed circular behaviour never happens. -/
theorem claim_C1 :
    (("ACGTACGT" ++ String.mk (List.replicate 34 'A') ++ "GGGGCCCC").toList.drop 42
        ++ ("ACGTACGT" ++ String.mk (List.replicate 34 'A') ++ "GGGGCCCC").toList.take 8
      = "GGGGCCCCACGTACGT".toList) ∧
    findPrimerBindingSites constZero constZero
      { primerSequence := "GGGGCCCCACGTACGT".toList
        fullSequence :=
          ("ACGTACGT" ++ String.mk (List.replicate 34 'A') ++ "GGGGCCCC").toList
        isCircular := true } = [] ∧
    findPrimerBindingSites constZero constZero
      { primerSequence := "GGGGCCCCACGTACGT".toList
        fullSequence :=
          ("ACGTACGT" ++ String.mk (List.replicate 34 'A') ++ "GGGGCCCC").toList
        isCircular := false } = [] := by
  refine ⟨by decide, by decide, by decide⟩

/-- C5 counterexample: ties in `start` are NOT broken by ascending
`overhangLength`.  On this input the output holds two sites with equal
`start = 2`, the first with overhang 2 and the second with overhang 0 — the
comparator at `findPrimerBindingSites.js:70` only looks at `start`. -/
theorem claim_C5_counterexample :
    (findPrimerBindingSites constZero constZero
        { primerSequence := "AAACGT".toList
          fullSequence := "GGACGTTTGG".toList
          maxMismatches := 0
          minBindingRegion := 3 }).length = 2 ∧
    ((findPrimerBindingSites constZero constZero
        { primerSequence := "AAACGT".toList
          fullSequence := "GGACGTTTGG".toList
          maxMismatches := 0
          minBindingRegion := 3 }).getD 0 default).start =
      ((findPrimerBindingSites constZero constZero
        { primerSequence := "AAACGT".toList
          fullSequence := "GGACGTTTGG".toList
          maxMismatches := 0
          minBindingRegion := 3 }).getD 1 default).start ∧
    ((findPrimerBindingSites constZero constZero
        { primerSequence := "AAACGT".toList
          fullSequence := "GGACGTTTGG".toList
          maxMismatches := 0
          minBindingRegion := 3 }).getD 0 default).overhangLength = 2 ∧
    ((findPrimerBindingSites constZero constZero
        { primerSequence := "AAACGT".toList
          fullSequence := "GGACGTTTGG".toList
          maxMismatches := 0
          minBindingRegion := 3 }).getD 1 default).overhangLength = 0 := by
  refine ⟨by decide, by decide, by decide, by decide⟩

/-- C5 (amended): the output is sorted ascending by `start` (ties keep the
stable pre-sort order — forward-strand candidates before reverse-strand ones —
and are not reordered by `overhangLength`), and after sorting and
deduplication element `i` receives id `binding-site-i`. -/
theorem claim_C5 (gcOf stabilityOf : List Char → ℤ) (args : FindArgs) :
    (findPrimerBindingSites gcOf stabilityOf args).Pairwise
      (fun a b => a.start ≤ b.start) ∧
    ∀ i, i < (findPrimerBindingSites gcOf stabilityOf args).length →
      ((findPrimerBindingSites gcOf stabilityOf args).getD i default).id =
        "binding-site-" ++ toString i := by
  unfold findPrimerBindingSites
  split_ifs with hempty
  · exact ⟨List.Pairwise.nil, fun i hi => absurd hi (by simp)⟩
  · constructor
    · exact assignIds_pairwise
        (List.Pairwise.sublist (deduplicateBindingSites_sublist _)
          (sortByStart_sorted _))
    · intro i hi
      rw [length_assignIds] at hi
      exact assignIds_getD_id _ i hi

/-- Witness for C5 at a concrete input with two output sites. -/
theorem claim_C5_witness :
    (findPrimerBindingSites constZero constZero
        { primerSequence := "AAACGT".toList
          fullSequence := "GGACGTTTGG".toList
          maxMismatches := 0
          minBindingRegion := 3 }).Pairwise
      (fun a b => a.start ≤ b.start) ∧
    0 < (findPrimerBindingSites constZero constZero
        { primerSequence := "AAACGT".toList
          fullSequence := "GGACGTTTGG".toList
          maxMismatches := 0
          minBindingRegion := 3 }).length ∧
    ((findPrimerBindingSites constZero constZero
        { primerSequence := "AAACGT".toList
          fullSequence := "GGACGTTTGG".toList
          maxMismatches := 0
          minBindingRegion := 3 }).getD 0 default).id =
      "binding-site-" ++ toString 0 :=
  ⟨(claim_C5 constZero constZero _).1, by decide,
    (claim_C5 constZero constZero _).2 0 (by decide)⟩

theorem normalizedPrimer_length_le (s : List Char) :
    (normalizedPrimer s).length ≤ s.length := by
  calc (normalizedPrimer s).length ≤ (s.map Char.toUpper).length :=
      List.length_filter_le _ _
    _ = s.length := List.length_map _ _

theorem searchForBindingSites_eq_nil_of_big_k {primer template : List Char}
    {fwd : Bool} {m k : ℤ} {circ : Bool} {tmF : List Char → Option ℤ}
    {gcOf stabilityOf : List Char → ℤ} (hk : (primer.length : ℤ) < k) :
    searchForBindingSites primer template fwd m k circ tmF gcOf stabilityOf = [] := by
  rw [List.eq_nil_iff_forall_not_mem]
  intro site hsite
  cases fwd
  · obtain ⟨s, -, -, hv, -⟩ := mem_searchReverse hsite
    obtain ⟨-, hrun, -⟩ := findOptimalBindingFrom5Prime_valid_spec hv
    have h1 := leadRun_le_length_left (reverseComplement primer)
      (templateRegionRev template s primer.length)
    rw [length_reverseComplement] at h1
    omega
  · obtain ⟨e, -, -, hv, -⟩ := mem_searchForward hsite
    obtain ⟨-, hrun, -⟩ := findOptimalBinding_valid_spec hv
    have h1 := tailRun_le_length_left primer
      (templateRegionFwd template (e - primer.length + 1) primer.length)
    omega

theorem extendAux_nonpos {m : ℤ} (hm : m ≤ 0) (posOf : ℕ → ℕ) :
    ∀ (lst : List (Char × Char)) (t : ℕ) (mms : List ℕ) (bl : ℕ),
      extendAux m posOf lst t mms bl = extendAux 0 posOf lst t mms bl
  | [], _, _, _ => rfl
  | ab :: rest, t, mms, bl => by
    unfold extendAux
    split_ifs with h1 h2 h3
    · exact extendAux_nonpos hm posOf rest (t + 1) mms (bl + 1)
    · omega
    · omega
    · omega
    · rfl

theorem findOptimalBinding_nonpos {m : ℤ} (hm : m ≤ 0)
    (p w : List Char) (k : ℤ) :
    findOptimalBinding p w m k = findOptimalBinding p w 0 k := by
  rw [findOptimalBinding_eq, findOptimalBinding_eq,
    extendAux_nonpos hm _ _ _ _ _]

theorem findOptimalBindingFrom5Prime_nonpos {m : ℤ} (hm : m ≤ 0)
    (p w : List Char) (k : ℤ) :
    findOptimalBindingFrom5Prime p w m k = findOptimalBindingFrom5Prime p w 0 k := by
  rw [findOptimalBindingFrom5Prime_eq, findOptimalBindingFrom5Prime_eq,
    extendAux_nonpos hm _ _ _ _ _]

theorem searchForBindingSites_nonpos {m : ℤ} (hm : m ≤ 0)
    (primer template : List Char) (fwd : Bool) (k : ℤ) (circ : Bool)
    (tmF : List Char → Option ℤ) (gcOf stabilityOf : List Char → ℤ) :
    searchForBindingSites primer template fwd m k circ tmF gcOf stabilityOf =
    searchForBindingSites primer template fwd 0 k circ tmF gcOf stabilityOf := by
  unfold searchForBindingSites
  cases fwd
  · simp only [Bool.false_eq_true, if_false]
    refine List.filterMap_congr fun s _ => ?_
    unfold reverseStep
    dsimp only
    rw [findOptimalBindingFrom5Prime_nonpos hm]
  · simp only [if_true]
    refine List.filterMap_congr fun e _ => ?_
    unfold forwardStep
    dsimp only
    rw [findOptimalBinding_nonpos hm]

/-- C6 counterexample: a negative `maxMismatches` does not yield an empty
result — an exact full-length occurrence is still reported (the extension
loop simply never admits a mismatch, exactly as with `maxMismatches = 0`). -/
theorem claim_C6_counterexample :
    findPrimerBindingSites constZero constZero
      { primerSequence := "ACGTACGTACGT".toList
        fullSequence := "GGACGTACGTACGTGG".toList
        maxMismatches := -1 } ≠ [] := by
  decide

/-- C6 (amended): a `minBindingRegion` larger than the primer length yields
the empty list (the seed requirement is unsatisfiable), and the search is a
total function, so neither degenerate configuration raises an error; but a
negative `maxMismatches` does not yield an empty list — it behaves exactly
like `maxMismatches = 0` and still reports mismatch-free sites. -/
theorem claim_C6 :
    (∀ (gcOf stabilityOf : List Char → ℤ) (args : FindArgs),
      (args.primerSequence.length : ℤ) < args.minBindingRegion →
      findPrimerBindingSites gcOf stabilityOf args = []) ∧
    (∀ (gcOf stabilityOf : List Char → ℤ) (args : FindArgs),
      args.maxMismatches ≤ 0 →
      findPrimerBindingSites gcOf stabilityOf args =
        findPrimerBindingSites gcOf stabilityOf
          { args with maxMismatches := 0 }) := by
  constructor
  · intro gcOf stabilityOf args hk
    have hlen : ((normalizedPrimer args.primerSequence).length : ℤ) <
        args.minBindingRegion := by
      have := normalizedPrimer_length_le args.primerSequence
      omega
    have hraw : rawResults gcOf stabilityOf args = [] := by
      unfold rawResults
      dsimp only
      rw [searchForBindingSites_eq_nil_of_big_k hlen,
        searchForBindingSites_eq_nil_of_big_k hlen, ite_self,
        List.nil_append]
    unfold findPrimerBindingSites sortedResults
    rw [hraw]
    split_ifs <;> rfl
  · intro gcOf stabilityOf args hm
    have hraw : rawResults gcOf stabilityOf args =
        rawResults gcOf stabilityOf { args with maxMismatches := 0 } := by
      unfold rawResults
      dsimp only
      rw [searchForBindingSites_nonpos hm, searchForBindingSites_nonpos hm]
    unfold findPrimerBindingSites sortedResults
    dsimp only
    rw [hraw]

/-- Witness for C6 at concrete inputs. -/
theorem claim_C6_witness :
    ((13 : ℤ) > ("ACGT".toList.length : ℤ) ∧
      findPrimerBindingSites constZero constZero
        { primerSequence := "ACGT".toList
          fullSequence := "GGACGTGG".toList
          minBindingRegion := 13 } = []) ∧
    ((-1 : ℤ) ≤ 0 ∧
      findPrimerBindingSites constZero constZero
        { primerSequence := "ACGTACGTACGT".toList
          fullSequence := "GGACGTACGTACGTGG".toList
          maxMismatches := -1 } =
      findPrimerBindingSites constZero constZero
        { primerSequence := "ACGTACGTACGT".toList
          fullSequence := "GGACGTACGTACGTGG".toList
          maxMismatches := 0 }) :=
  ⟨⟨by decide, claim_C6.1 constZero constZero _ (by decide)⟩,
    ⟨by decide, claim_C6.2 constZero constZero
      { primerSequence := "ACGTACGTACGT".toList
        fullSequence := "GGACGTACGTACGTGG".toList
        maxMismatches := -1 } (by decide)⟩⟩

/-- The concrete input exercising a dominance chain: the reverse strand
yields three overlapping candidates `[2,5]` (overhang 4), `[3,8]` (overhang 2)
and `[4,6]` (overhang 5), all mismatch-free. -/
def exampleOverlapArgs : FindArgs :=
  { primerSequence := "CGCGTTTT".toList
    fullSequence := "CCAAAAACGACC".toList
    maxMismatches := 0
    minBindingRegion := 3 }

/-- C2 counterexample: the sorted raw candidates at indices 0 and 2 (intervals
`[2,5]` and `[4,6]`, both reverse strand) overlap by more than 50% of the
shorter one, and index 0 is the better-ranked of the pair; yet NEITHER appears
in the final output — the only surviving site starts at 3.  Candidate 0 is
first dominated by candidate 1, and then, while its own row keeps running,
the already-discarded candidate 0 dominates candidate 2
(`findPrimerBindingSites.js:428-451` never re-checks `dominated.has(i)` inside
the inner loop). -/
theorem claim_C2_counterexample :
    (sortedResults constZero constZero exampleOverlapArgs).length = 3 ∧
    ((sortedResults constZero constZero exampleOverlapArgs).getD 0 default).start = 2 ∧
    ((sortedResults constZero constZero exampleOverlapArgs).getD 2 default).start = 4 ∧
    ((sortedResults constZero constZero exampleOverlapArgs).getD 0 default).forward =
      ((sortedResults constZero constZero exampleOverlapArgs).getD 2 default).forward ∧
    overlapsMoreThanHalf
      ((sortedResults constZero constZero exampleOverlapArgs).getD 0 default)
      ((sortedResults constZero constZero exampleOverlapArgs).getD 2 default) = true ∧
    getBetterBindingSite
      ((sortedResults constZero constZero exampleOverlapArgs).getD 0 default)
      ((sortedResults constZero constZero exampleOverlapArgs).getD 2 default) = true ∧
    (findPrimerBindingSites constZero constZero exampleOverlapArgs).length = 1 ∧
    (findPrimerBindingSites constZero constZero exampleOverlapArgs).all
      (fun x => decide (x.start ≠ 2 ∧ x.start ≠ 4)) = true := by
  refine ⟨by decide, by decide, by decide, by decide, by decide, by decide,
    by decide, by decide⟩

/-- C2 (amended): for any two same-strand raw candidates (in the sorted
pre-deduplication list) whose intervals overlap by more than 50% of the
shorter one, AT MOST one of the two survives — at least one of the two indices
ends up in the dominated set, and the final output consists exactly of the
candidates at non-dominated indices (in order, with ids assigned).  "Exactly
one" fails (see the counterexample): a candidate that has already been
discarded can still discard others, so both members of an overlapping pair can
be eliminated, and the survivor of a pair need not be its better-ranked
member. -/
theorem claim_C2 (gcOf stabilityOf : List Char → ℤ) (args : FindArgs)
    (i j : ℕ) (hij : i < j)
    (hj : j < (sortedResults gcOf stabilityOf args).length)
    (hstrand : ((sortedResults gcOf stabilityOf args).getD i default).forward =
      ((sortedResults gcOf stabilityOf args).getD j default).forward)
    (hover : overlapsMoreThanHalf
      ((sortedResults gcOf stabilityOf args).getD i default)
      ((sortedResults gcOf stabilityOf args).getD j default) = true) :
    (i ∈ dedupDominated (sortedResults gcOf stabilityOf args) ∨
      j ∈ dedupDominated (sortedResults gcOf stabilityOf args)) ∧
    findPrimerBindingSites gcOf stabilityOf args =
      (if args.primerSequence = [] ∨ args.fullSequence = [] then []
       else assignIds
        (((sortedResults gcOf stabilityOf args).enum.filter
          (fun p => p.1 ∉ dedupDominated (sortedResults gcOf stabilityOf args))).map
          Prod.snd)) := by
  refine ⟨dedupDominated_covers hij hj hstrand hover, ?_⟩
  unfold findPrimerBindingSites
  rw [deduplicateBindingSites_eq]

/-- Witness for C2 at the concrete overlap input, pair (0, 2). -/
theorem claim_C2_witness :
    ((0 : ℕ) < 2 ∧ 2 < (sortedResults constZero constZero exampleOverlapArgs).length ∧
      ((sortedResults constZero constZero exampleOverlapArgs).getD 0 default).forward =
        ((sortedResults constZero constZero exampleOverlapArgs).getD 2 default).forward ∧
      overlapsMoreThanHalf
        ((sortedResults constZero constZero exampleOverlapArgs).getD 0 default)
        ((sortedResults constZero constZero exampleOverlapArgs).getD 2 default) = true) ∧
    ((0 ∈ dedupDominated (sortedResults constZero constZero exampleOverlapArgs) ∨
      2 ∈ dedupDominated (sortedResults constZero constZero exampleOverlapArgs)) ∧
    findPrimerBindingSites constZero constZero exampleOverlapArgs =
      (if exampleOverlapArgs.primerSequence = [] ∨ exampleOverlapArgs.fullSequence = [] then []
       else assignIds
        (((sortedResults constZero constZero exampleOverlapArgs).enum.filter
          (fun p => p.1 ∉ dedupDominated (sortedResults constZero constZero exampleOverlapArgs))).map
          Prod.snd))) :=
  ⟨⟨by decide, by decide, by decide, by decide⟩,
    claim_C2 constZero constZero exampleOverlapArgs 0 2 (by decide) (by decide)
      (by decide) (by decide)⟩

/-! ## The pipeline is natural in the Tm calculator (for C7) -/

theorem setTm_forward (g : List Char → Option ℤ) (a : BindingSite) :
    (setTm g a).forward = a.forward := rfl

theorem setTm_overlaps (g : List Char → Option ℤ) (a b : BindingSite) :
    overlapsMoreThanHalf (setTm g a) (setTm g b) = overlapsMoreThanHalf a b := rfl

theorem setTm_better (g : List Char → Option ℤ) (a b : BindingSite) :
    getBetterBindingSite (setTm g a) (setTm g b) = getBetterBindingSite a b := rfl

theorem setTm_start (g : List Char → Option ℤ) (a : BindingSite) :
    (setTm g a).start = a.start := rfl

theorem setTm_mkForwardSite (g : List Char → Option ℤ) (p : List Char) (N : ℤ)
    (w : List Char) (s e : ℤ) (br : OptBindingResult)
    (gcOf stabilityOf : List Char → ℤ) :
    setTm g (mkForwardSite p N w s e br (fun _ => none) gcOf stabilityOf) =
    mkForwardSite p N w s e br g gcOf stabilityOf := rfl

theorem setTm_mkReverseSite (g : List Char → Option ℤ) (p q w : List Char)
    (s : ℤ) (br : OptBindingResult) (gcOf stabilityOf : List Char → ℤ) :
    setTm g (mkReverseSite p q w s br (fun _ => none) gcOf stabilityOf) =
    mkReverseSite p q w s br g gcOf stabilityOf := rfl

theorem forwardStep_tm (p T : List Char) (m k : ℤ) (circ : Bool)
    (g : List Char → Option ℤ) (gcOf stabilityOf : List Char → ℤ) (e : ℤ) :
    forwardStep p T m k circ g gcOf stabilityOf e =
    (forwardStep p T m k circ (fun _ => none) gcOf stabilityOf e).map (setTm g) := by
  unfold forwardStep
  dsimp only
  split_ifs with hg hv
  · rfl
  · rw [Option.map_some', setTm_mkForwardSite]
  · rfl

theorem reverseStep_tm (p T : List Char) (m k : ℤ) (circ : Bool)
    (g : List Char → Option ℤ) (gcOf stabilityOf : List Char → ℤ) (s : ℤ) :
    reverseStep p T m k circ g gcOf stabilityOf s =
    (reverseStep p T m k circ (fun _ => none) gcOf stabilityOf s).map (setTm g) := by
  unfold reverseStep
  dsimp only
  split_ifs with hg hv
  · rfl
  · rw [Option.map_some', setTm_mkReverseSite]
  · rfl

theorem searchForBindingSites_tm (p T : List Char) (fwd : Bool) (m k : ℤ)
    (circ : Bool) (g : List Char → Option ℤ)
    (gcOf stabilityOf : List Char → ℤ) :
    searchForBindingSites p T fwd m k circ g gcOf stabilityOf =
    (searchForBindingSites p T fwd m k circ (fun _ => none) gcOf
      stabilityOf).map (setTm g) := by
  unfold searchForBindingSites
  cases fwd
  · simp only [Bool.false_eq_true, if_false]
    rw [List.map_filterMap]
    exact List.filterMap_congr fun s _ => reverseStep_tm p T m k circ g gcOf stabilityOf s
  · simp only [if_true]
    rw [List.map_filterMap]
    exact List.filterMap_congr fun e _ => forwardStep_tm p T m k circ g gcOf stabilityOf e

theorem rawResults_tm (gcOf stabilityOf : List Char → ℤ) (args : FindArgs)
    (g : List Char → Option ℤ) :
    rawResults gcOf stabilityOf { args with calculateTm := g } =
    (rawResults gcOf stabilityOf
      { args with calculateTm := fun _ => none }).map (setTm g) := by
  unfold rawResults
  dsimp only
  rw [List.map_append, searchForBindingSites_tm _ _ true,
    searchForBindingSites_tm _ _ false]
  by_cases hsr : args.searchReverseStrand = true
  · rw [if_pos hsr, if_pos hsr]
  · rw [if_neg hsr, if_neg hsr, List.map_nil]

theorem insertByStart_map (f : BindingSite → BindingSite)
    (hf : ∀ a, (f a).start = a.start) (x : BindingSite) :
    ∀ l : List BindingSite,
      insertByStart (f x) (l.map f) = (insertByStart x l).map f
  | [] => rfl
  | y :: ys => by
    simp only [insertByStart, List.map_cons, hf]
    split_ifs with h
    · rw [insertByStart_map f hf x ys, List.map_cons]
    · rfl

theorem sortFold_map (f : BindingSite → BindingSite)
    (hf : ∀ a, (f a).start = a.start) :
    ∀ (l acc : List BindingSite),
      (l.map f).foldl (fun a x => insertByStart x a) (acc.map f) =
        (l.foldl (fun a x => insertByStart x a) acc).map f
  | [], _ => rfl
  | x :: xs, acc => by
    rw [List.map_cons, List.foldl_cons, List.foldl_cons,
      insertByStart_map f hf x acc, sortFold_map f hf xs _]

theorem sortByStart_map_setTm (g : List Char → Option ℤ)
    (l : List BindingSite) :
    sortByStart (l.map (setTm g)) = (sortByStart l).map (setTm g) := by
  unfold sortByStart
  simpa using sortFold_map (setTm g) (fun _ => rfl) l []

theorem getD_map_lt (l : List BindingSite) (f : BindingSite → BindingSite)
    (i : ℕ) (hi : i < l.length) :
    (l.map f).getD i default = f (l.getD i default) := by
  rw [List.getD_eq_getElem _ _ (by simpa using hi),
    List.getD_eq_getElem _ _ hi, List.getElem_map]

theorem dedupInner_map_setTm (g : List Char → Option ℤ)
    (rs : List BindingSite) (i : ℕ) (hi : i < rs.length) :
    ∀ (js dom : List ℕ), (∀ j ∈ js, j < rs.length) →
      dedupInner (rs.map (setTm g)) i js dom = dedupInner rs i js dom
  | [], _, _ => rfl
  | j :: js, dom, hjs => by
    have hj : j < rs.length := hjs j (List.mem_cons_self j js)
    have hrest : ∀ j' ∈ js, j' < rs.length := fun j' hj' =>
      hjs j' (List.mem_cons_of_mem j hj')
    rw [dedupInner_cons_eq, dedupInner_cons_eq,
      getD_map_lt rs (setTm g) i hi, getD_map_lt rs (setTm g) j hj,
      setTm_forward, setTm_forward, setTm_overlaps, setTm_better,
      dedupInner_map_setTm g rs i hi js dom hrest,
      dedupInner_map_setTm g rs i hi js
        (dom ++ [if getBetterBindingSite (rs.getD i default) (rs.getD j default)
          then j else i]) hrest]

theorem dedupOuter_map_setTm (g : List Char → Option ℤ)
    (rs : List BindingSite) :
    ∀ (is dom : List ℕ), (∀ i ∈ is, i < rs.length) →
      dedupOuter (rs.map (setTm g)) is dom = dedupOuter rs is dom
  | [], _, _ => rfl
  | i :: is, dom, his => by
    have hi : i < rs.length := his i (List.mem_cons_self i is)
    have hrest : ∀ i' ∈ is, i' < rs.length := fun i' hi' =>
      his i' (List.mem_cons_of_mem i hi')
    unfold dedupOuter
    rw [List.length_map]
    split_ifs with h
    · exact dedupOuter_map_setTm g rs is dom hrest
    · rw [dedupInner_map_setTm g rs i hi _ dom
        (fun j hj => by rw [List.mem_range'_1] at hj; omega)]
      exact dedupOuter_map_setTm g rs is _ hrest

theorem dedupDominated_map_setTm (g : List Char → Option ℤ)
    (rs : List BindingSite) :
    dedupDominated (rs.map (setTm g)) = dedupDominated rs := by
  unfold dedupDominated
  rw [List.length_map]
  exact dedupOuter_map_setTm g rs _ [] fun i hi => by
    rw [List.mem_range] at hi; exact hi

theorem deduplicate_map_setTm (g : List Char → Option ℤ)
    (rs : List BindingSite) :
    deduplicateBindingSites (rs.map (setTm g)) =
      (deduplicateBindingSites rs).map (setTm g) := by
  rw [deduplicateBindingSites_eq, deduplicateBindingSites_eq,
    dedupDominated_map_setTm, List.enum_map, List.filter_map, List.map_map,
    List.map_map]
  rfl

theorem assignIds_map_setTm (g : List Char → Option ℤ)
    (l : List BindingSite) :
    assignIds (l.map (setTm g)) = (assignIds l).map (setTm g) := by
  unfold assignIds
  rw [List.enum_map, List.map_map, List.map_map]
  rfl

/-- Running the pipeline with Tm calculator `g` equals running it with no
calculator and recomputing `tm` on each output site. -/
theorem findPrimerBindingSites_tm (gcOf stabilityOf : List Char → ℤ)
    (args : FindArgs) (g : List Char → Option ℤ) :
    findPrimerBindingSites gcOf stabilityOf { args with calculateTm := g } =
    (findPrimerBindingSites gcOf stabilityOf
      { args with calculateTm := fun _ => none }).map (setTm g) := by
  unfold findPrimerBindingSites sortedResults
  dsimp only
  split_ifs with h
  · rfl
  · rw [rawResults_tm, sortByStart_map_setTm, deduplicate_map_setTm,
      assignIds_map_setTm]

/-- A concrete input with one exact forward site and one exact reverse site
(the primer is its own reverse complement). -/
def exampleExactArgs : FindArgs :=
  { primerSequence := "ACGTACGTACGT".toList
    fullSequence := "GGACGTACGTACGTGG".toList }

/-- C7 counterexample: `findPrimerBindingSites` itself has no `try`/`catch`
around the `calculateTm(bindingSeq)` call (`findPrimerBindingSites.js:163`,
`:262`), so an injected calculator that throws aborts the whole search
(modelled by the `Except`-propagating run returning `error`) instead of
completing with `tm = null`. -/
theorem claim_C7_counterexample :
    findPrimerBindingSitesT constZero constZero exampleExactArgs
      (fun _ => Except.error ()) = Except.error () := by
  rfl

/-- C7 (amended): the catch lives in the dialog's injected wrapper, not in
`findPrimerBindingSites`.  With the wrapper `dialogWrap f` around a
possibly-throwing calculator `f`, the search always completes; every output
site carries `tm = (f bindingSequence).toOption` — in particular `tm = none`
exactly where `f` throws — and erasing `tm` gives field-for-field the same
output as running with no calculator at all. -/
theorem claim_C7 (gcOf stabilityOf : List Char → ℤ) (args : FindArgs)
    (f : List Char → Except Unit ℤ) :
    (∀ site ∈ findPrimerBindingSites gcOf stabilityOf
        { args with calculateTm := dialogWrap f },
      site.tm = (f site.bindingSequence).toOption) ∧
    (findPrimerBindingSites gcOf stabilityOf
        { args with calculateTm := dialogWrap f }).map eraseTm =
      (findPrimerBindingSites gcOf stabilityOf
        { args with calculateTm := fun _ => none }).map eraseTm := by
  constructor
  · intro site hsite
    rw [findPrimerBindingSites_tm] at hsite
    obtain ⟨y, -, rfl⟩ := List.mem_map.mp hsite
    rfl
  · rw [findPrimerBindingSites_tm, List.map_map]
    exact List.map_congr_left fun y _ => rfl

/-- Witness for C7: with an always-throwing calculator behind the dialog
wrapper, the first output site exists and has `tm = none`. -/
theorem claim_C7_witness :
    ((findPrimerBindingSites constZero constZero
        { exampleExactArgs with
            calculateTm := dialogWrap (fun _ => Except.error ()) }).getD 0 default
      ∈ findPrimerBindingSites constZero constZero
        { exampleExactArgs with
            calculateTm := dialogWrap (fun _ => Except.error ()) } ∧
    ((findPrimerBindingSites constZero constZero
        { exampleExactArgs with
            calculateTm := dialogWrap (fun _ => Except.error ()) }).getD 0
          default).tm =
      ((fun _ => Except.error ())
        ((findPrimerBindingSites constZero constZero
          { exampleExactArgs with
              calculateTm := dialogWrap (fun _ => Except.error ()) }).getD 0
            default).bindingSequence : Except Unit ℤ).toOption) ∧
    (findPrimerBindingSites constZero constZero
        { exampleExactArgs with
            calculateTm := dialogWrap (fun _ => Except.error ()) }).map eraseTm =
      (findPrimerBindingSites constZero constZero
        { exampleExactArgs with calculateTm := fun _ => none }).map eraseTm :=
  ⟨⟨by decide,
    (claim_C7 constZero constZero exampleExactArgs (fun _ => Except.error ())).1 _
      (by decide)⟩,
    (claim_C7 constZero constZero exampleExactArgs (fun _ => Except.error ())).2⟩

/-! ## The seed floor (C3) -/

theorem leadRun_map_comp : ∀ a b : List Char,
    leadRun a (b.map getComplementChar) =
      leadRun (a.map getComplementChar) b
  | [], b => by cases b <;> simp [leadRun]
  | a :: as, [] => by simp [leadRun_nil_right]
  | a :: as, b :: bs => by
    simp only [List.map_cons, leadRun]
    by_cases h : a = getComplementChar b
    · rw [if_pos h, if_pos (by rw [h, getComplementChar_involutive]),
        leadRun_map_comp as bs]
    · rw [if_neg h,
        if_neg (fun hc => h (by rw [← hc, getComplementChar_involutive]))]

/-- The seed run of a valid forward site is exactly the 3'-anchored run of the
full window. -/
theorem seedRun_forward {p w : List Char} {m k : ℤ}
    (hv : (findOptimalBinding p w m k).isValid = true) (N s e : ℤ)
    (tmF : List Char → Option ℤ) (gcOf stabilityOf : List Char → ℤ) :
    seedRun (mkForwardSite p N w s e (findOptimalBinding p w m k) tmF gcOf
      stabilityOf) = tailRun p w := by
  obtain ⟨hlen, hrun, c, hc, hbl, -⟩ := findOptimalBinding_valid_spec hv
  have hrunle := tailRun_le_length_left p w
  have hseed : seedRun (mkForwardSite p N w s e (findOptimalBinding p w m k)
      tmF gcOf stabilityOf) =
      tailRun (p.drop (p.length - (findOptimalBinding p w m k).bindingLength))
        (w.drop (p.length - (findOptimalBinding p w m k).bindingLength)) := rfl
  rw [hseed, tailRun_drop p w _ hlen, hbl]
  omega

/-- The seed run of a valid reverse site equals the 5'-anchored run of the
reverse-complemented primer against the full window. -/
theorem seedRun_reverse {p w : List Char} {m k : ℤ}
    (hv : (findOptimalBindingFrom5Prime (reverseComplement p) w m
      k).isValid = true) (s : ℤ)
    (tmF : List Char → Option ℤ) (gcOf stabilityOf : List Char → ℤ) :
    seedRun (mkReverseSite p (reverseComplement p) w s
      (findOptimalBindingFrom5Prime (reverseComplement p) w m k) tmF gcOf
      stabilityOf) = leadRun (reverseComplement p) w := by
  obtain ⟨hlen, hrun, c, hc, hbl, -⟩ := findOptimalBindingFrom5Prime_valid_spec hv
  have hll := length_reverseComplement p
  have hrunle := leadRun_le_length_left (reverseComplement p) w
  set br := findOptimalBindingFrom5Prime (reverseComplement p) w m k with hbr
  have hblle : br.bindingLength ≤ p.length := by omega
  have h1 : seedRun (mkReverseSite p (reverseComplement p) w s br tmF gcOf
      stabilityOf) =
      leadRun (p.drop (p.length - br.bindingLength)).reverse
        (reverseComplement (w.take br.bindingLength)).reverse := rfl
  have h2 : (p.drop (p.length - br.bindingLength)).reverse =
      p.reverse.take br.bindingLength := by
    rw [List.reverse_drop]
    congr 1
    omega
  have h3 : (reverseComplement (w.take br.bindingLength)).reverse =
      (w.take br.bindingLength).map getComplementChar := by
    unfold reverseComplement getComplementSequenceString
    rw [List.reverse_reverse]
  have h4 : (p.reverse.take br.bindingLength).map getComplementChar =
      (reverseComplement p).take br.bindingLength := by
    rw [List.map_take]
    congr 1
    exact List.map_reverse _ _
  rw [h1, h2, h3, leadRun_map_comp, h4, leadRun_take]
  omega

/-- C3 (confirmed): every returned binding site has at least
`minBindingRegion` consecutive exact matches anchored at the primer's 3' end
(in original-primer orientation for reverse-strand sites), for every value of
`maxMismatches`. -/
theorem claim_C3 (gcOf stabilityOf : List Char → ℤ) (args : FindArgs)
    (site : BindingSite)
    (h : site ∈ findPrimerBindingSites gcOf stabilityOf args) :
    args.minBindingRegion ≤ (seedRun site : ℤ) := by
  obtain ⟨y, hy, n, rfl⟩ := mem_findPrimerBindingSites h
  have hid : seedRun { y with id := "binding-site-" ++ toString n } =
      seedRun y := rfl
  rw [hid]
  rcases mem_rawResults hy with hf | hr
  · obtain ⟨e, he1, he2, hv, rfl⟩ := mem_searchForward hf
    rw [seedRun_forward hv]
    obtain ⟨-, hrun, -⟩ := findOptimalBinding_valid_spec hv
    exact hrun
  · obtain ⟨s, hs1, hs2, hv, rfl⟩ := mem_searchReverse hr
    rw [seedRun_reverse hv]
    obtain ⟨-, hrun, -⟩ := findOptimalBindingFrom5Prime_valid_spec hv
    exact hrun

/-- Witness for C3 at a concrete input whose output holds a site with a
15-base seed run against the 12-base floor. -/
theorem claim_C3_witness :
    ((findPrimerBindingSites constZero constZero
        { primerSequence := "TTAACGTACGTACGTA".toList
          fullSequence := "GGGGTTCACGTACGTACGTAGG".toList
          maxMismatches := 1
          minBindingRegion := 4 }).getD 0 default
      ∈ findPrimerBindingSites constZero constZero
        { primerSequence := "TTAACGTACGTACGTA".toList
          fullSequence := "GGGGTTCACGTACGTACGTAGG".toList
          maxMismatches := 1
          minBindingRegion := 4 }) ∧
    (4 : ℤ) ≤ (seedRun ((findPrimerBindingSites constZero constZero
        { primerSequence := "TTAACGTACGTACGTA".toList
          fullSequence := "GGGGTTCACGTACGTACGTAGG".toList
          maxMismatches := 1
          minBindingRegion := 4 }).getD 0 default) : ℤ) :=
  ⟨by decide,
    claim_C3 constZero constZero
      { primerSequence := "TTAACGTACGTACGTA".toList
        fullSequence := "GGGGTTCACGTACGTACGTAGG".toList
        maxMismatches := 1
        minBindingRegion := 4 } _ (by decide)⟩

/-! ## Counting binding-region mismatches (C8) -/

theorem zip_drop_eq : ∀ (a b : List Char) (n : ℕ),
    (a.zip b).drop n = (a.drop n).zip (b.drop n)
  | _, _, 0 => rfl
  | [], b, n + 1 => by simp
  | a :: as, [], n + 1 => by simp
  | a :: as, b :: bs, n + 1 => by
    rw [List.zip_cons_cons, List.drop_succ_cons, List.drop_succ_cons,
      List.drop_succ_cons, zip_drop_eq as bs n]

theorem zip_take_eq : ∀ (a b : List Char) (n : ℕ),
    (a.zip b).take n = (a.take n).zip (b.take n)
  | _, _, 0 => by simp
  | [], b, n + 1 => by simp
  | a :: as, [], n + 1 => by simp
  | a :: as, b :: bs, n + 1 => by
    rw [List.zip_cons_cons, List.take_succ_cons, List.take_succ_cons,
      List.take_succ_cons, List.zip_cons_cons, zip_take_eq as bs n]

theorem countP_ne_zip_self : ∀ x : List Char,
    (x.zip x).countP (fun ab => decide (ab.1 ≠ ab.2)) = 0
  | [] => rfl
  | a :: as => by
    rw [List.zip_cons_cons, List.countP_cons, countP_ne_zip_self as]
    simp

theorem countP_zip_reverse (pr : Char × Char → Bool) :
    ∀ (a b : List Char), a.length = b.length →
      (a.reverse.zip b.reverse).countP pr = (a.zip b).countP pr
  | [], [], _ => rfl
  | [], _ :: _, h => by simp at h
  | _ :: _, [], h => by simp at h
  | a :: as, b :: bs, h => by
    rw [List.length_cons, List.length_cons] at h
    have h' : as.length = bs.length := by omega
    rw [List.reverse_cons, List.reverse_cons,
      List.zip_append (by simpa using h'), List.countP_append,
      countP_zip_reverse pr as bs h', List.zip_cons_cons, List.countP_cons,
      List.zip_cons_cons, List.countP_cons, List.zip_nil_left,
      List.countP_nil]
    omega

theorem countP_ne_zip_map_comp (a b : List Char) :
    ((a.map getComplementChar).zip (b.map getComplementChar)).countP
      (fun ab => decide (ab.1 ≠ ab.2)) =
    (a.zip b).countP (fun ab => decide (ab.1 ≠ ab.2)) := by
  rw [List.zip_map, List.countP_map]
  refine List.countP_congr fun ab _ => ?_
  obtain ⟨x, y⟩ := ab
  have hiff : (getComplementChar x ≠ getComplementChar y) ↔ x ≠ y :=
    ⟨fun hne heq => hne (by rw [heq]),
      fun hne heq => hne (getComplementChar_inj heq)⟩
  simpa [Function.comp, Prod.map] using hiff

/-- A valid forward binding's recorded mismatch count is exactly the number
of mismatching positions of the binding region. -/
theorem count_forward {p w : List Char} {m k : ℤ}
    (hv : (findOptimalBinding p w m k).isValid = true) :
    (findOptimalBinding p w m k).mismatchPositions.length =
      ((p.drop (p.length - (findOptimalBinding p w m k).bindingLength)).zip
        (w.drop (p.length - (findOptimalBinding p w m k).bindingLength))).countP
        (fun ab => decide (ab.1 ≠ ab.2)) := by
  obtain ⟨hlen, hrun, c, hc, hbl, hcount, -⟩ := findOptimalBinding_valid_spec hv
  have hrle := tailRun_le_length_left p w
  set br := findOptimalBinding p w m k with hbrdef
  set L := p.length with hLdef
  set run := tailRun p w with hrdef
  set oh := L - br.bindingLength with hohdef
  have hzlen : (p.zip w).length = L := by
    rw [List.length_zip, ← hlen]
    omega
  have hXlen : ((p.zip w).take (L - run)).length = L - run := by
    rw [List.length_take]
    omega
  have hoh : oh = L - run - c := by omega
  have h1 : ((p.zip w).take (L - run)).reverse.take c =
      (((p.zip w).take (L - run)).drop oh).reverse := by
    rw [List.reverse_drop, hXlen]
    congr 1
    omega
  have hseedeq : p.drop (L - run) = w.drop (L - run) := by
    have := drop_tailRun_eq p w
    rw [← hlen] at this
    exact this
  have hseed0 : ((p.zip w).drop (L - run)).countP
      (fun ab => decide (ab.1 ≠ ab.2)) = 0 := by
    rw [zip_drop_eq, hseedeq]
    exact countP_ne_zip_self _
  have hsplit : (p.zip w).drop oh =
      ((p.zip w).take (L - run)).drop oh ++ (p.zip w).drop (L - run) := by
    conv_lhs => rw [← List.take_append_drop (L - run) (p.zip w)]
    rw [List.drop_append_eq_append_drop, hXlen,
      show oh - (L - run) = 0 by omega, List.drop_zero]
  rw [hcount, h1, List.countP_reverse, ← zip_drop_eq, hsplit,
    List.countP_append, hseed0]
  omega

/-- A valid reverse binding's recorded mismatch count is exactly the number of
non-pairing positions of the binding region, read in original-primer
orientation. -/
theorem count_reverse {p w : List Char} {m k : ℤ}
    (hv : (findOptimalBindingFrom5Prime (reverseComplement p) w m
      k).isValid = true) :
    (findOptimalBindingFrom5Prime (reverseComplement p) w m
      k).mismatchPositions.length =
      ((p.drop (p.length - (findOptimalBindingFrom5Prime (reverseComplement p)
          w m k).bindingLength)).zip
        (reverseComplement (w.take (findOptimalBindingFrom5Prime
          (reverseComplement p) w m k).bindingLength))).countP
        (fun ab => decide (ab.1 ≠ ab.2)) := by
  obtain ⟨hlen, hrun, c, hc, hbl, hcount, -⟩ :=
    findOptimalBindingFrom5Prime_valid_spec hv
  have hll := length_reverseComplement p
  have hrle := leadRun_le_length_left (reverseComplement p) w
  set br := findOptimalBindingFrom5Prime (reverseComplement p) w m k with hbrdef
  set q := reverseComplement p with hqdef
  set L := p.length with hLdef
  set run := leadRun q w with hrdef
  set bl := br.bindingLength with hbldef
  have hblle : bl ≤ L := by omega
  have hwlen : w.length = L := by omega
  -- p.drop (L - bl) = (map comp (q.take bl)).reverse
  have hdrop : p.drop (L - bl) = ((q.take bl).map getComplementChar).reverse := by
    have h4 : q.take bl = (p.reverse.take bl).map getComplementChar := by
      rw [List.map_take]
      congr 1
      exact (List.map_reverse _ _).symm
    rw [h4, List.map_map]
    have hid : ∀ x ∈ p.reverse.take bl,
        (getComplementChar ∘ getComplementChar) x = id x := fun x _ =>
      getComplementChar_involutive x
    rw [List.map_congr_left hid, List.map_id, List.reverse_take,
      List.reverse_reverse, List.length_reverse]
  have hrc : reverseComplement (w.take bl) =
      ((w.take bl).map getComplementChar).reverse := rfl
  rw [hcount, hdrop, hrc,
    countP_zip_reverse _ _ _ (by
      rw [List.length_map, List.length_map, List.length_take,
        List.length_take, length_reverseComplement]
      omega),
    countP_ne_zip_map_comp, ← zip_take_eq,
    show bl = run + c from hbl, List.take_add, List.countP_append]
  have hseed0 : (((q.zip w).take run).countP
      (fun ab => decide (ab.1 ≠ ab.2))) = 0 := by
    rw [zip_take_eq, take_leadRun_eq]
    exact countP_ne_zip_self _
  rw [hseed0]
  omega

theorem numBindingMismatches_mkForward (p : List Char) (N : ℤ) (w : List Char)
    (s e : ℤ) (br : OptBindingResult) (tmF : List Char → Option ℤ)
    (gcOf stabilityOf : List Char → ℤ) :
    numBindingMismatches (mkForwardSite p N w s e br tmF gcOf stabilityOf) =
      ((p.drop (p.length - br.bindingLength)).zip
        (w.drop (p.length - br.bindingLength))).countP
        (fun ab => decide (ab.1 ≠ ab.2)) := rfl

theorem numBindingMismatches_mkReverse (p q w : List Char) (s : ℤ)
    (br : OptBindingResult) (tmF : List Char → Option ℤ)
    (gcOf stabilityOf : List Char → ℤ) :
    numBindingMismatches (mkReverseSite p q w s br tmF gcOf stabilityOf) =
      ((p.drop (p.length - br.bindingLength)).zip
        (reverseComplement (w.take br.bindingLength))).countP
        (fun ab => decide (ab.1 ≠ ab.2)) := rfl

/-- C8 (confirmed): under the spec's input contract (`minBindingRegion` a
positive integer), every output site satisfies
`overhangLength + |bindingSequence| = |primerSequence|`,
`end - start + 1 = |bindingSequence|`, and `numMismatches` counts exactly the
mismatching positions inside the binding region (overhang positions are never
counted). -/
theorem claim_C8 (gcOf stabilityOf : List Char → ℤ) (args : FindArgs)
    (hk : 1 ≤ args.minBindingRegion) (site : BindingSite)
    (h : site ∈ findPrimerBindingSites gcOf stabilityOf args) :
    site.overhangLength + site.bindingSequence.length =
      site.primerSequence.length ∧
    site.stop - site.start + 1 = (site.bindingSequence.length : ℤ) ∧
    site.numMismatches = numBindingMismatches site := by
  obtain ⟨y, hy, n, rfl⟩ := mem_findPrimerBindingSites h
  show y.overhangLength + y.bindingSequence.length = y.primerSequence.length ∧
    y.stop - y.start + 1 = (y.bindingSequence.length : ℤ) ∧
    y.numMismatches = numBindingMismatches y
  rcases mem_rawResults hy with hf | hr
  · obtain ⟨e, he1, he2, hv, rfl⟩ := mem_searchForward hf
    obtain ⟨hlen, hrun, c, hc, hbl, -⟩ := findOptimalBinding_valid_spec hv
    set p := normalizedPrimer args.primerSequence with hp
    set T := args.fullSequence.map Char.toUpper with hT
    set w := templateRegionFwd T (e - p.length + 1) p.length with hw
    set br := findOptimalBinding p w args.maxMismatches args.minBindingRegion
      with hbr
    have hrle := tailRun_le_length_left p w
    have hbl1 : 1 ≤ br.bindingLength := by omega
    have hblle : br.bindingLength ≤ p.length := by omega
    refine ⟨?_, ?_, ?_⟩
    · show (p.length - br.bindingLength) +
        (p.drop (p.length - br.bindingLength)).length = p.length
      rw [List.length_drop]
      omega
    · show e - ((e - p.length + 1 +
          ((p.length - br.bindingLength : ℕ) : ℤ) + T.length) % T.length) + 1 =
        ((p.drop (p.length - br.bindingLength)).length : ℤ)
      have hcollapse : (e - p.length + 1 +
          ((p.length - br.bindingLength : ℕ) : ℤ) + T.length) % T.length =
          e - p.length + 1 + ((p.length - br.bindingLength : ℕ) : ℤ) := by
        rw [Int.add_emod_self]
        refine Int.emod_eq_of_lt (by omega) (by omega)
      rw [hcollapse, List.length_drop]
      omega
    · show br.mismatchPositions.length = numBindingMismatches _
      rw [numBindingMismatches_mkForward]
      exact count_forward hv
  · obtain ⟨s, hs1, hs2, hv, rfl⟩ := mem_searchReverse hr
    obtain ⟨hlen, hrun, c, hc, hbl, -⟩ := findOptimalBindingFrom5Prime_valid_spec hv
    set p := normalizedPrimer args.primerSequence with hp
    set T := args.fullSequence.map Char.toUpper with hT
    set w := templateRegionRev T s p.length with hw
    set br := findOptimalBindingFrom5Prime (reverseComplement p) w
      args.maxMismatches args.minBindingRegion with hbr
    have hll := length_reverseComplement p
    have hrle := leadRun_le_length_left (reverseComplement p) w
    have hblle : br.bindingLength ≤ p.length := by omega
    refine ⟨?_, ?_, ?_⟩
    · show (p.length - br.bindingLength) +
        (p.drop (p.length - br.bindingLength)).length = p.length
      rw [List.length_drop]
      omega
    · show (s + ((br.bindingLength : ℕ) : ℤ) - 1) - s + 1 =
        ((p.drop (p.length - br.bindingLength)).length : ℤ)
      rw [List.length_drop]
      omega
    · show br.mismatchPositions.length = numBindingMismatches _
      rw [numBindingMismatches_mkReverse]
      exact count_reverse hv

/-- Witness for C8 at a concrete input whose single site has one internal
mismatch and no overhang. -/
theorem claim_C8_witness :
    ((1 : ℤ) ≤ (4 : ℤ) ∧
      (findPrimerBindingSites constZero constZero
        { primerSequence := "TTAACGTACGTACGTA".toList
          fullSequence := "GGGGTTCACGTACGTACGTAGG".toList
          maxMismatches := 1
          minBindingRegion := 4 }).getD 0 default
        ∈ findPrimerBindingSites constZero constZero
          { primerSequence := "TTAACGTACGTACGTA".toList
            fullSequence := "GGGGTTCACGTACGTACGTAGG".toList
            maxMismatches := 1
            minBindingRegion := 4 }) ∧
    (((findPrimerBindingSites constZero constZero
        { primerSequence := "TTAACGTACGTACGTA".toList
          fullSequence := "GGGGTTCACGTACGTACGTAGG".toList
          maxMismatches := 1
          minBindingRegion := 4 }).getD 0 default).overhangLength +
      ((findPrimerBindingSites constZero constZero
        { primerSequence := "TTAACGTACGTACGTA".toList
          fullSequence := "GGGGTTCACGTACGTACGTAGG".toList
          maxMismatches := 1
          minBindingRegion := 4 }).getD 0 default).bindingSequence.length =
      ((findPrimerBindingSites constZero constZero
        { primerSequence := "TTAACGTACGTACGTA".toList
          fullSequence := "GGGGTTCACGTACGTACGTAGG".toList
          maxMismatches := 1
          minBindingRegion := 4 }).getD 0 default).primerSequence.length ∧
      ((findPrimerBindingSites constZero constZero
        { primerSequence := "TTAACGTACGTACGTA".toList
          fullSequence := "GGGGTTCACGTACGTACGTAGG".toList
          maxMismatches := 1
          minBindingRegion := 4 }).getD 0 default).stop -
        ((findPrimerBindingSites constZero constZero
          { primerSequence := "TTAACGTACGTACGTA".toList
            fullSequence := "GGGGTTCACGTACGTACGTAGG".toList
            maxMismatches := 1
            minBindingRegion := 4 }).getD 0 default).start + 1 =
      (((findPrimerBindingSites constZero constZero
        { primerSequence := "TTAACGTACGTACGTA".toList
          fullSequence := "GGGGTTCACGTACGTACGTAGG".toList
          maxMismatches := 1
          minBindingRegion := 4 }).getD 0 default).bindingSequence.length : ℤ) ∧
      ((findPrimerBindingSites constZero constZero
        { primerSequence := "TTAACGTACGTACGTA".toList
          fullSequence := "GGGGTTCACGTACGTACGTAGG".toList
          maxMismatches := 1
          minBindingRegion := 4 }).getD 0 default).numMismatches =
      numBindingMismatches ((findPrimerBindingSites constZero constZero
        { primerSequence := "TTAACGTACGTACGTA".toList
          fullSequence := "GGGGTTCACGTACGTACGTAGG".toList
          maxMismatches := 1
          minBindingRegion := 4 }).getD 0 default)) :=
  ⟨⟨by decide, by decide⟩,
    claim_C8 constZero constZero
      { primerSequence := "TTAACGTACGTACGTA".toList
        fullSequence := "GGGGTTCACGTACGTACGTAGG".toList
        maxMismatches := 1
        minBindingRegion := 4 } (by decide) _ (by decide)⟩

/-! ## Reverse-complement symmetry (C4) -/

theorem getD_drop_eq (l : List Char) (n i : ℕ) (h : n + i < l.length) :
    (l.drop n).getD i ' ' = l.getD (n + i) ' ' := by
  rw [List.getD_eq_getElem _ _ (by rw [List.length_drop]; omega),
    List.getD_eq_getElem _ _ h, List.getElem_drop]

theorem getD_take_eq (l : List Char) (n i : ℕ) (hi : i < n)
    (hl : i < l.length) :
    (l.take n).getD i ' ' = l.getD i ' ' := by
  rw [List.getD_eq_getElem _ _ (by rw [List.length_take]; omega),
    List.getD_eq_getElem _ _ hl, List.getElem_take]

theorem tailRun_self (a : List Char) : tailRun a a = a.length := by
  rw [tailRun, leadRun_self, List.length_reverse]

theorem findOptimalBindingFrom5Prime_self (Q : List Char) (m k : ℤ)
    (hk : k ≤ (Q.length : ℤ)) :
    findOptimalBindingFrom5Prime Q Q m k =
      ⟨true, Q.length, [], Q.length⟩ := by
  rw [findOptimalBindingFrom5Prime_eq, if_neg (by omega), if_neg (by simp),
    leadRun_self, if_neg (by omega)]
  have hnil : (Q.zip Q).drop Q.length = [] := by
    rw [show Q.length = (Q.zip Q).length by simp, List.drop_length]
  rw [hnil]
  rfl

theorem findOptimalBinding_self (Q : List Char) (m k : ℤ)
    (hk : k ≤ (Q.length : ℤ)) :
    findOptimalBinding Q Q m k = ⟨true, Q.length, [], Q.length⟩ := by
  rw [findOptimalBinding_eq, if_neg (by omega), if_neg (by simp),
    tailRun_self, if_neg (by omega)]
  have hnil : ((Q.zip Q).take (Q.length - Q.length)).reverse = [] := by
    rw [Nat.sub_self, List.take_zero, List.reverse_nil]
  rw [hnil]
  rfl

theorem eq_of_from5Prime_valid {Q w : List Char} {m k : ℤ}
    (hlen : Q.length = w.length) (hk : (Q.length : ℤ) ≤ k)
    (hv : (findOptimalBindingFrom5Prime Q w m k).isValid = true) :
    Q = w := by
  obtain ⟨-, hrun, -⟩ := findOptimalBindingFrom5Prime_valid_spec hv
  exact eq_of_leadRun_ge hlen (by exact_mod_cast le_trans hk hrun)

theorem eq_of_threePrime_valid {Q w : List Char} {m k : ℤ}
    (hlen : Q.length = w.length) (hk : (Q.length : ℤ) ≤ k)
    (hv : (findOptimalBinding Q w m k).isValid = true) :
    Q = w := by
  obtain ⟨-, hrun, -⟩ := findOptimalBinding_valid_spec hv
  have hrev : Q.reverse = w.reverse := by
    refine eq_of_leadRun_ge (by simpa using hlen) ?_
    rw [List.length_reverse]
    exact_mod_cast le_trans hk hrun
  simpa using congrArg List.reverse hrev

theorem reverseComplement_getD (p : List Char) (i : ℕ) (hi : i < p.length) :
    (reverseComplement p).getD i ' ' =
      getComplementChar (p.getD (p.length - 1 - i) ' ') := by
  rw [List.getD_eq_getElem _ _ (by rw [length_reverseComplement]; omega),
    List.getD_eq_getElem _ _ (by omega)]
  unfold reverseComplement getComplementSequenceString
  rw [List.getElem_reverse]
  simp only [List.getElem_map, List.length_map]

theorem reverseStep_eq (p template : List Char) (m k : ℤ) (circ : Bool)
    (tmF : List Char → Option ℤ) (gcOf stabilityOf : List Char → ℤ) (s : ℤ) :
    reverseStep p template m k circ tmF gcOf stabilityOf s =
      if s + (p.length : ℤ) - 1 ≥ (template.length : ℤ) ∧ ¬circ then none
      else if (findOptimalBindingFrom5Prime (reverseComplement p)
          (templateRegionRev template s p.length) m k).isValid then
        some (mkReverseSite p (reverseComplement p)
          (templateRegionRev template s p.length) s
          (findOptimalBindingFrom5Prime (reverseComplement p)
            (templateRegionRev template s p.length) m k) tmF gcOf stabilityOf)
      else none := rfl

theorem forwardStep_eq (p template : List Char) (m k : ℤ) (circ : Bool)
    (tmF : List Char → Option ℤ) (gcOf stabilityOf : List Char → ℤ) (e : ℤ) :
    forwardStep p template m k circ tmF gcOf stabilityOf e =
      if e - (p.length : ℤ) + 1 < 0 ∧ ¬circ then none
      else if (findOptimalBinding p
          (templateRegionFwd template (e - (p.length : ℤ) + 1) p.length) m
          k).isValid then
        some (mkForwardSite p template.length
          (templateRegionFwd template (e - (p.length : ℤ) + 1) p.length)
          (e - (p.length : ℤ) + 1) e
          (findOptimalBinding p
            (templateRegionFwd template (e - (p.length : ℤ) + 1) p.length) m k)
          tmF gcOf stabilityOf)
      else none := rfl

/-- Pointwise comparison of the two scans at full-length seed floor
(`minBindingRegion = |primer|`): the reverse-strand step at window start `s`
and the forward step of the reverse-complemented primer whose 3' end sits at
`s + |primer| - 1` report the same `[start, end]` interval (or both reject). -/
theorem reverseStep_intervalOf (p template : List Char) (m : ℤ) (circ : Bool)
    (tmF : List Char → Option ℤ) (gcOf stabilityOf : List Char → ℤ)
    (hp : 1 ≤ p.length) (s : ℤ) (hs0 : 0 ≤ s)
    (hsN : s ≤ (template.length : ℤ) - p.length) :
    Option.map intervalOf
      (reverseStep p template m p.length circ tmF gcOf stabilityOf s) =
    Option.map intervalOf
      (forwardStep (reverseComplement p) template m p.length circ tmF gcOf
        stabilityOf (s + (p.length : ℤ) - 1)) := by
  rw [reverseStep_eq, forwardStep_eq]
  have hg1 : ¬((s + (p.length : ℤ) - 1 ≥ (template.length : ℤ)) ∧
      ¬(circ = true)) :=
    fun hc => absurd hc.1 (by omega)
  have hg2 : ¬((s + (p.length : ℤ) - 1 -
      ((reverseComplement p).length : ℤ) + 1 < 0) ∧ ¬(circ = true)) :=
    fun hc => by
      have h1 := hc.1
      rw [length_reverseComplement] at h1
      omega
  rw [if_neg hg1, if_neg hg2]
  rw [length_reverseComplement]
  rw [show s + (p.length : ℤ) - 1 - (p.length : ℤ) + 1 = s from by ring]
  rw [templateRegionFwd_eq_rev]
  set Q := reverseComplement p with hQdef
  set w := templateRegionRev template s p.length with hwdef
  have hQL : Q.length = p.length := by
    rw [hQdef]; exact length_reverseComplement p
  have hwl : w.length = p.length := by
    rw [hwdef]; exact length_templateRegionRev template s p.length
  by_cases hQw : Q = w
  · rw [← hQw]
    rw [findOptimalBindingFrom5Prime_self Q m (p.length : ℤ)
      (by exact_mod_cast hQL.ge)]
    rw [findOptimalBinding_self Q m (p.length : ℤ) (by exact_mod_cast hQL.ge)]
    have hval : (⟨true, Q.length, [], Q.length⟩ : OptBindingResult).isValid =
        true := rfl
    rw [if_pos hval]
    rw [if_pos hval]
    rw [Option.map_some', Option.map_some']
    refine congrArg some ?_
    show ((s, s + ((Q.length : ℕ) : ℤ) - 1) : ℤ × ℤ) =
      ((s + ((Q.length - Q.length : ℕ) : ℤ) + (template.length : ℤ)) %
          (template.length : ℤ), s + (p.length : ℤ) - 1)
    rw [Nat.sub_self]
    rw [Prod.mk.injEq]
    constructor
    · rw [show (((0 : ℕ) : ℤ)) = 0 from rfl, add_zero, Int.add_emod_self,
        Int.emod_eq_of_lt hs0 (by omega)]
    · rw [hQL]
  · have hlen : Q.length = w.length := by rw [hQL, hwl]
    have h5 : ¬ ((findOptimalBindingFrom5Prime Q w m (p.length : ℤ)).isValid =
        true) :=
      fun hv => hQw (eq_of_from5Prime_valid hlen (by exact_mod_cast hQL.le) hv)
    have h3 : ¬ ((findOptimalBinding Q w m (p.length : ℤ)).isValid = true) :=
      fun hv => hQw (eq_of_threePrime_valid hlen (by exact_mod_cast hQL.le) hv)
    rw [if_neg h5, if_neg h3]

theorem mkReverseSite_mismatchPositions (p q w : List Char) (s : ℤ)
    (br : OptBindingResult) (tmF : List Char → Option ℤ)
    (gcOf stabilityOf : List Char → ℤ) :
    (mkReverseSite p q w s br tmF gcOf stabilityOf).mismatchPositions =
      br.mismatchPositions.map
        (fun (posRC : ℕ) => (p.length : ℤ) - 1 - posRC -
          ((p.length - br.bindingLength : ℕ) : ℤ)) := rfl

/-- C4 counterexample: with `maxMismatches = 0` and `minBindingRegion = 3`,
the reverse-strand search of primer `GTTT` on the linear template `GGAAATGG`
reports the interval `[2, 4]` (the reverse-complement `AAAC` seed-matches
`AAA` from its 5' end), but the forward-only search of
`reverseComplement(GTTT) = AAAC` on the same template reports no interval at
all: the forward matcher anchors at the searched sequence's 3' end (`C`),
which matches nowhere.  The two interval sets differ, refuting the claimed
equality for partial (overhang) bindings. -/
theorem claim_C4_counterexample :
    (searchForBindingSites ("GTTT".toList) ("GGAAATGG".toList) false 0 3 false
        (fun _ => none) constZero constZero).map intervalOf = [(2, 4)] ∧
    (searchForBindingSites (reverseComplement ("GTTT".toList))
        ("GGAAATGG".toList) true 0 3 false (fun _ => none) constZero
        constZero).map intervalOf = [] := by
  constructor
  · decide
  · decide

/-- C4 (corrected): the reverse-complement symmetry of the two scans holds in
the full-length regime `minBindingRegion = |primer|` (where no overhang is
possible): for every nonempty primer the reverse-strand search of `P` and the
forward-only search of `reverseComplement(P)` report exactly the same list of
`[start, end]` intervals.  (For smaller `minBindingRegion` the claimed
equality is refuted by `claim_C4_counterexample`: the forward matcher anchors
at the 3' end of the sequence it is given while the reverse matcher anchors
at the 5' end of the reverse complement, so partial bindings are not
symmetric.)  Second conjunct, as claimed: reverse-strand coordinates are
reported in original-primer 5'→3' indexing — every entry of
`mismatchPositions` is a valid index `mN` into `bindingSequence` at which the
primer base fails to complement the template base paired with it (the
matched-region base read back from its far end), and
`fullPrimerMismatchPositions` is exactly the overhang indices
`0, …, overhangLength - 1` followed by `mismatchPositions` shifted by
`overhangLength`. -/
theorem claim_C4 :
    (∀ (p template : List Char) (m : ℤ) (circ : Bool)
      (tmF : List Char → Option ℤ) (gcOf stabilityOf : List Char → ℤ),
      1 ≤ p.length →
      (searchForBindingSites p template false m (p.length : ℤ) circ tmF gcOf
        stabilityOf).map intervalOf =
      (searchForBindingSites (reverseComplement p) template true m
        (p.length : ℤ) circ tmF gcOf stabilityOf).map intervalOf) ∧
    (∀ (p template : List Char) (m k : ℤ) (circ : Bool)
      (tmF : List Char → Option ℤ) (gcOf stabilityOf : List Char → ℤ)
      (site : BindingSite),
      site ∈ searchForBindingSites p template false m k circ tmF gcOf
        stabilityOf →
      (∀ mp ∈ site.mismatchPositions, ∃ mN : ℕ, mp = (mN : ℤ) ∧
        mN < site.bindingSequence.length ∧
        site.bindingSequence.getD mN ' ' ≠
          getComplementChar (site.matchedSequence.getD
            (site.bindingSequence.length - 1 - mN) ' ')) ∧
      site.fullPrimerMismatchPositions =
        (List.range site.overhangLength).map Int.ofNat ++
          site.mismatchPositions.map (fun x => x + (site.overhangLength : ℤ))) := by
  constructor
  · intro p template m circ tmF gcOf stabilityOf hp
    have hQL := length_reverseComplement p
    rw [show searchForBindingSites p template false m (p.length : ℤ) circ tmF
        gcOf stabilityOf =
      (intRange 0 ((template.length : ℤ) - (p.length : ℤ))).filterMap
        (reverseStep p template m (p.length : ℤ) circ tmF gcOf stabilityOf)
      from rfl]
    rw [show searchForBindingSites (reverseComplement p) template true m
        (p.length : ℤ) circ tmF gcOf stabilityOf =
      (intRange (((reverseComplement p).length : ℤ) - 1)
          ((template.length : ℤ) - 1)).filterMap
        (forwardStep (reverseComplement p) template m (p.length : ℤ) circ tmF
          gcOf stabilityOf) from rfl]
    rw [List.map_filterMap, List.map_filterMap]
    rw [hQL]
    rw [intRange_shift ((p.length : ℤ) - 1) ((template.length : ℤ) - 1)]
    rw [List.filterMap_map]
    rw [show (template.length : ℤ) - 1 - ((p.length : ℤ) - 1) =
      (template.length : ℤ) - (p.length : ℤ) from by ring]
    refine List.filterMap_congr fun s hs => ?_
    obtain ⟨hs0, hsN⟩ := mem_intRange hs
    have hpt := reverseStep_intervalOf p template m circ tmF gcOf stabilityOf
      hp s hs0 hsN
    dsimp only [Function.comp]
    rw [show s + ((p.length : ℤ) - 1) = s + (p.length : ℤ) - 1 from by ring]
    exact hpt
  · intro p template m k circ tmF gcOf stabilityOf site hmem
    obtain ⟨s, hs1, hs2, hv, rfl⟩ := mem_searchReverse hmem
    obtain ⟨hlen, hrun, c, hc, hbl, -, hmm⟩ :=
      findOptimalBindingFrom5Prime_valid_spec hv
    set Q := reverseComplement p with hQdef
    set w := templateRegionRev template s p.length with hwdef
    set br := findOptimalBindingFrom5Prime Q w m k with hbrdef
    have hQL : Q.length = p.length := by
      rw [hQdef]; exact length_reverseComplement p
    have hwl : w.length = p.length := by
      rw [hwdef]; exact length_templateRegionRev template s p.length
    have hrle : leadRun Q w ≤ Q.length := leadRun_le_length_left Q w
    have hble : br.bindingLength ≤ p.length := by omega
    constructor
    · intro mp hmp
      have hmp' : mp ∈ br.mismatchPositions.map
          (fun (posRC : ℕ) => (p.length : ℤ) - 1 - posRC -
            ((p.length - br.bindingLength : ℕ) : ℤ)) := hmp
      obtain ⟨posRC, hpos, rfl⟩ := List.mem_map.mp hmp'
      obtain ⟨t, htc, hpt, hmis⟩ := hmm posRC hpos
      subst hpt
      have hposlt : leadRun Q w + t < br.bindingLength := by omega
      refine ⟨br.bindingLength - 1 - (leadRun Q w + t), by omega, ?_, ?_⟩
      · show br.bindingLength - 1 - (leadRun Q w + t) <
          (p.drop (p.length - br.bindingLength)).length
        rw [List.length_drop]
        omega
      · show (p.drop (p.length - br.bindingLength)).getD
            (br.bindingLength - 1 - (leadRun Q w + t)) ' ' ≠
          getComplementChar ((w.take br.bindingLength).getD
            ((p.drop (p.length - br.bindingLength)).length - 1 -
              (br.bindingLength - 1 - (leadRun Q w + t))) ' ')
        have hdl : (p.drop (p.length - br.bindingLength)).length =
            br.bindingLength := by
          rw [List.length_drop]; omega
        rw [hdl]
        rw [show br.bindingLength - 1 -
          (br.bindingLength - 1 - (leadRun Q w + t)) = leadRun Q w + t
          from by omega]
        rw [getD_drop_eq _ _ _ (by omega)]
        rw [show (p.length - br.bindingLength) +
          (br.bindingLength - 1 - (leadRun Q w + t)) =
          p.length - 1 - (leadRun Q w + t) from by omega]
        rw [getD_take_eq w br.bindingLength (leadRun Q w + t) hposlt (by omega)]
        have htb : t < ((Q.zip w).drop (leadRun Q w)).length := by
          rw [List.length_drop, List.length_zip, hQL, hwl, Nat.min_self]
          omega
        have hget : ((Q.zip w).drop (leadRun Q w)).getD t default =
            (Q.getD (leadRun Q w + t) ' ', w.getD (leadRun Q w + t) ' ') := by
          rw [List.getD_eq_getElem _ _ htb, List.getElem_drop,
            List.getElem_zip, List.getD_eq_getElem Q _ (by omega),
            List.getD_eq_getElem w _ (by omega)]
        have hne : Q.getD (leadRun Q w + t) ' ' ≠
            w.getD (leadRun Q w + t) ' ' := by
          rw [hget] at hmis
          exact hmis
        have hQget : Q.getD (leadRun Q w + t) ' ' =
            getComplementChar (p.getD (p.length - 1 - (leadRun Q w + t)) ' ') := by
          rw [hQdef]
          exact reverseComplement_getD p (leadRun Q w + t) (by omega)
        intro heq
        apply hne
        rw [hQget, heq, getComplementChar_involutive]
    · show (List.range (p.length - br.bindingLength)).map Int.ofNat ++
          br.mismatchPositions.map
            (fun (posInRC : ℕ) => (p.length : ℤ) - 1 - posInRC) =
        (List.range (p.length - br.bindingLength)).map Int.ofNat ++
          (br.mismatchPositions.map
            (fun (posInRC : ℕ) => (p.length : ℤ) - 1 - posInRC -
              ((p.length - br.bindingLength : ℕ) : ℤ))).map
            (fun x => x + ((p.length - br.bindingLength : ℕ) : ℤ))
      congr 1
      rw [List.map_map]
      refine (List.map_congr_left fun x _ => ?_).symm
      simp only [Function.comp_apply]
      ring

/-- Witness for C4: the full-length conjunct at primer `ACGT` on
`GGACGTAACGTG` (two exact sites), and the coordinate conjunct at the single
reverse-strand site of `GTTT` on `GGAAATGG` with one internal mismatch. -/
theorem claim_C4_witness :
    ((1 ≤ "ACGT".toList.length) ∧
      (searchForBindingSites ("ACGT".toList) ("GGACGTAACGTG".toList) false 0
          (("ACGT".toList.length : ℕ) : ℤ) false (fun _ => none) constZero
          constZero).map intervalOf =
        (searchForBindingSites (reverseComplement ("ACGT".toList))
          ("GGACGTAACGTG".toList) true 0 (("ACGT".toList.length : ℕ) : ℤ)
          false (fun _ => none) constZero constZero).map intervalOf) ∧
    (((searchForBindingSites ("GTTT".toList) ("GGAAATGG".toList) false 1 3
          false (fun _ => none) constZero constZero).getD 0 default ∈
        searchForBindingSites ("GTTT".toList) ("GGAAATGG".toList) false 1 3
          false (fun _ => none) constZero constZero) ∧
      (∀ mp ∈ ((searchForBindingSites ("GTTT".toList) ("GGAAATGG".toList)
          false 1 3 false (fun _ => none) constZero constZero).getD 0
          default).mismatchPositions, ∃ mN : ℕ, mp = (mN : ℤ) ∧
        mN < ((searchForBindingSites ("GTTT".toList) ("GGAAATGG".toList)
          false 1 3 false (fun _ => none) constZero constZero).getD 0
          default).bindingSequence.length ∧
        ((searchForBindingSites ("GTTT".toList) ("GGAAATGG".toList) false 1 3
          false (fun _ => none) constZero constZero).getD 0
          default).bindingSequence.getD mN ' ' ≠
          getComplementChar (((searchForBindingSites ("GTTT".toList)
            ("GGAAATGG".toList) false 1 3 false (fun _ => none) constZero
            constZero).getD 0 default).matchedSequence.getD
            ((((searchForBindingSites ("GTTT".toList) ("GGAAATGG".toList)
              false 1 3 false (fun _ => none) constZero constZero).getD 0
              default).bindingSequence.length - 1 - mN)) ' ')) ∧
      ((searchForBindingSites ("GTTT".toList) ("GGAAATGG".toList) false 1 3
          false (fun _ => none) constZero constZero).getD 0
          default).fullPrimerMismatchPositions =
        (List.range ((searchForBindingSites ("GTTT".toList)
          ("GGAAATGG".toList) false 1 3 false (fun _ => none) constZero
          constZero).getD 0 default).overhangLength).map Int.ofNat ++
          ((searchForBindingSites ("GTTT".toList) ("GGAAATGG".toList) false 1
            3 false (fun _ => none) constZero constZero).getD 0
            default).mismatchPositions.map
            (fun x => x + ((((searchForBindingSites ("GTTT".toList)
              ("GGAAATGG".toList) false 1 3 false (fun _ => none) constZero
              constZero).getD 0 default).overhangLength : ℕ) : ℤ))) :=
  ⟨⟨by decide,
    claim_C4.1 ("ACGT".toList) ("GGACGTAACGTG".toList) 0 false (fun _ => none)
      constZero constZero (by decide)⟩,
   ⟨by decide,
    claim_C4.2 ("GTTT".toList) ("GGAAATGG".toList) 1 3 false (fun _ => none)
      constZero constZero
      ((searchForBindingSites ("GTTT".toList) ("GGAAATGG".toList) false 1 3
        false (fun _ => none) constZero constZero).getD 0 default)
      (by decide)⟩⟩

end PrimerSites
